/-
Verification of the libFirm loop-unrolling and double-word-lowering
fragments against their specification.

The Lean definitions below are shallow embeddings of the C functions of the
repository; each definition's doc comment names the C function (and file
region) it translates.  Machine integers are modelled as `Nat`/`Int` with
explicit `% 2 ^ w` truncation where a C cast truncates.
-/
import Mathlib

namespace Spec2Proof

/-! # Power-of-two test

`find_optimal_factor` (loop unroller) tests "candidate is a power of two"
with the bit trick `(candidate != 0) && ((candidate & (candidate - 1)) == 0)`.
We embed that test literally and relate it to the arithmetic notion. -/

/-- Bit test used by `find_optimal_factor` (part_000 line 839):
`(c != 0) && ((c & (c - 1)) == 0)`. -/
def isPow2 (c : Nat) : Bool := c != 0 && (c &&& (c - 1)) == 0

theorem isPow2_iff (c : Nat) : isPow2 c = true ↔ ∃ k, c = 2 ^ k := by
  unfold isPow2
  simp only [Bool.and_eq_true, ne_eq, bne_iff_ne, beq_iff_eq]
  constructor
  · rintro ⟨hne, hand⟩
    refine ⟨Nat.log2 c, ?_⟩
    have hle : 2 ^ Nat.log2 c ≤ c := Nat.log2_self_le hne
    have hlt : c < 2 ^ (Nat.log2 c + 1) := Nat.lt_log2_self
    by_contra hneq
    have hlt2 : 2 ^ Nat.log2 c < c := lt_of_le_of_ne hle (fun h => hneq h.symm)
    -- both bit (log2 c) of c and of (c - 1) are set, contradicting c &&& (c-1) = 0
    have hdivc : c / 2 ^ Nat.log2 c = 1 := by
      apply Nat.div_eq_of_lt_le (by simpa using hle)
      simpa [Nat.two_mul, Nat.pow_succ, Nat.mul_comm] using hlt
    have hdivc1 : (c - 1) / 2 ^ Nat.log2 c = 1 := by
      apply Nat.div_eq_of_lt_le
      · simp only [Nat.one_mul]
        omega
      · have : c - 1 < 2 ^ (Nat.log2 c + 1) := by omega
        simpa [Nat.two_mul, Nat.pow_succ, Nat.mul_comm] using this
    have hb1 : Nat.testBit c (Nat.log2 c) = true := by
      rw [Nat.testBit_to_div_mod, hdivc]; decide
    have hb2 : Nat.testBit (c - 1) (Nat.log2 c) = true := by
      rw [Nat.testBit_to_div_mod, hdivc1]; decide
    have : Nat.testBit (c &&& (c - 1)) (Nat.log2 c) = true := by
      rw [Nat.testBit_land, hb1, hb2]; rfl
    rw [hand] at this
    simp at this
  · rintro ⟨k, rfl⟩
    constructor
    · have := Nat.pos_pow_of_pos k (show 0 < 2 by decide)
      omega
    · apply Nat.eq_of_testBit_eq
      intro i
      rw [Nat.testBit_land, Nat.testBit_two_pow, Nat.testBit_two_pow_sub_one,
        Nat.zero_testBit]
      by_cases h : k = i
      · subst h; simp
      · simp [h]

instance pow2Decidable (c : Nat) : Decidable (∃ k, c = 2 ^ k) :=
  decidable_of_iff (isPow2 c = true) (isPow2_iff c)

/-! # Loop unrolling: `find_optimal_factor` (claim C5)

Translation of `find_optimal_factor` (part_000 lines 827-846).  The C
signature is `unsigned find_optimal_factor(unsigned long number, unsigned
max)`; the casts `(unsigned) number` truncate to 32 bits and are rendered
as `% 2 ^ 32`. -/

/-- Loop of `find_optimal_factor` (part_000 lines 832-844): iterate
`i = 2 .. number/2`; on the first divisor `i` of `number` such that
`number / i ≤ max` and the 32-bit candidate `(unsigned) number / i` passes
the power-of-two bit test, return the candidate; if the loop runs out,
return 0. -/
def fofLoop (number max : Nat) (i : Nat) : Nat :=
  if i ≤ number / 2 then
    if number % i = 0 ∧ number / i ≤ max ∧ isPow2 (number % 2 ^ 32 / i) = true then
      number % 2 ^ 32 / i
    else fofLoop number max (i + 1)
  else 0
termination_by number / 2 + 1 - i
decreasing_by
  simp_wf
  omega

/-- `find_optimal_factor` (part_000 lines 827-846): if `number <= max` the
loop can be unrolled completely and `(unsigned) number` is returned
directly (whether or not it is a power of two); otherwise the divisor
loop above runs. -/
def find_optimal_factor (number max : Nat) : Nat :=
  if number ≤ max then number % 2 ^ 32
  else fofLoop number max 2

/-- Specification-side predicate: `d` is a power-of-two divisor of
`number`, proper (`1 < d < number`) and not exceeding `max`. -/
def pow2DivisorQ (number max : Nat) (d : Nat) : Prop :=
  d ∣ number ∧ 2 ≤ d ∧ d < number ∧ d ≤ max ∧ ∃ k, d = 2 ^ k

instance pow2DivisorQDecidable (number max d : Nat) :
    Decidable (pow2DivisorQ number max d) := by
  unfold pow2DivisorQ; infer_instance

theorem findGreatest_eq_of_gap (P : Nat → Prop) [DecidablePred P] {b1 b2 : Nat}
    (h : b2 ≤ b1) (hgap : ∀ d, b2 < d → d ≤ b1 → ¬P d) :
    Nat.findGreatest P b1 = Nat.findGreatest P b2 := by
  rw [Nat.findGreatest_eq_iff]
  refine ⟨(Nat.findGreatest_le b2).trans h,
    fun h0 => Nat.findGreatest_of_ne_zero rfl h0, ?_⟩
  intro n hlt hle
  by_cases hn : n ≤ b2
  · exact Nat.findGreatest_is_greatest hlt hn
  · exact hgap n (Nat.not_le.mp hn) hle

theorem fofLoop_eq (number max : Nat) (h32 : number < 2 ^ 32)
    (hmax : max < number) :
    ∀ i, 2 ≤ i →
      fofLoop number max i
        = Nat.findGreatest (pow2DivisorQ number max) (number / i) := by
  have hpos : 0 < number := by omega
  have key : ∀ fuel i, number / 2 + 1 - i ≤ fuel → 2 ≤ i →
      fofLoop number max i
        = Nat.findGreatest (pow2DivisorQ number max) (number / i) := by
    intro fuel
    induction fuel with
    | zero =>
      intro i hfuel h2
      have hi : ¬ i ≤ number / 2 := by omega
      rw [fofLoop, if_neg hi]
      symm
      rw [Nat.findGreatest_eq_zero_iff]
      intro d hd hdle hQ
      -- with i past number/2 the bound number/i is at most 1, but Q forces d ≥ 2
      have : number / i < 2 := by
        rw [Nat.div_lt_iff_lt_mul (by omega)]
        omega
      have h2d := hQ.2.1
      omega
    | succ fuel ih =>
      intro i hfuel h2
      by_cases hi : i ≤ number / 2
      · rw [fofLoop, if_pos hi]
        have hipos : 0 < i := by omega
        have h2i : 2 * i ≤ number := by
          have := (Nat.le_div_iff_mul_le (k := 2) (by decide)).mp hi
          omega
        have hdiv2 : 2 ≤ number / i := (Nat.le_div_iff_mul_le hipos).mpr (by omega)
        have htrunc : number % 2 ^ 32 = number := Nat.mod_eq_of_lt h32
        by_cases hhit : number % i = 0 ∧ number / i ≤ max ∧
            isPow2 (number % 2 ^ 32 / i) = true
        · rw [if_pos hhit, htrunc]
          symm
          rw [Nat.findGreatest_eq_iff]
          obtain ⟨hmod, hle, hp2⟩ := hhit
          rw [htrunc] at hp2
          have hidvd : i ∣ number := Nat.dvd_of_mod_eq_zero hmod
          refine ⟨le_refl _, fun _ => ?_, fun n hlt hle' hQ => by omega⟩
          exact ⟨Nat.div_dvd_of_dvd hidvd, hdiv2,
            Nat.div_lt_self hpos (by omega), hle, (isPow2_iff _).mp hp2⟩
        · rw [if_neg hhit]
          rw [ih (i + 1) (by omega) (by omega)]
          symm
          apply findGreatest_eq_of_gap
          · exact Nat.div_le_div_left (by omega) hipos
          · intro d hlt hle hQ
            obtain ⟨hdvd, h2d, hdn, hdmax, hk⟩ := hQ
            have hdpos : 0 < d := by omega
            -- from number/(i+1) < d ≤ number/i conclude number/d = i, so d = number/i
            have hup : i ≤ number / d := by
              have h1 : d * i ≤ number := (Nat.le_div_iff_mul_le hipos).mp hle
              have h2 : i * d ≤ number := by rw [Nat.mul_comm]; exact h1
              exact (Nat.le_div_iff_mul_le hdpos).mpr h2
            have hdown : number / d ≤ i := by
              have hnd : number < d * (i + 1) := by
                by_contra hcon
                have h3 : d * (i + 1) ≤ number := by omega
                have : d ≤ number / (i + 1) :=
                  (Nat.le_div_iff_mul_le (by omega)).mpr h3
                omega
              have h4 : number < (i + 1) * d := by rw [Nat.mul_comm]; exact hnd
              have := (Nat.div_lt_iff_lt_mul hdpos).mpr h4
              omega
            have hndi : number / d = i := by omega
            have hmul : i * d = number := by
              have := Nat.div_mul_cancel hdvd
              rw [hndi] at this
              omega
            have hdval : number / i = d := by
              rw [← hmul, Nat.mul_div_cancel_left d hipos]
            apply hhit
            refine ⟨by rw [← hmul]; exact Nat.mul_mod_right i d, ?_, ?_⟩
            · rw [hdval]; exact hdmax
            · rw [htrunc, hdval]
              exact (isPow2_iff d).mpr hk
      · rw [fofLoop, if_neg hi]
        symm
        rw [Nat.findGreatest_eq_zero_iff]
        intro d hd hdle hQ
        have : number / i < 2 := by
          rw [Nat.div_lt_iff_lt_mul (by omega)]
          omega
        have h2d := hQ.2.1
        omega
  intro i h2
  exact key (number / 2 + 1 - i) i (le_refl _) h2

/-- Characterization of `find_optimal_factor` on inputs below `2 ^ 32`:
for `number ≤ max` it returns `number` itself; otherwise it returns the
greatest proper power-of-two divisor of `number` not exceeding `max`
(`Nat.findGreatest` returns 0 when no such divisor exists). -/
theorem find_optimal_factor_eq (number max : Nat) (h32 : number < 2 ^ 32) :
    find_optimal_factor number max
      = if number ≤ max then number
        else Nat.findGreatest (pow2DivisorQ number max) number := by
  unfold find_optimal_factor
  by_cases h : number ≤ max
  · rw [if_pos h, if_pos h, Nat.mod_eq_of_lt h32]
  · rw [if_neg h, if_neg h, fofLoop_eq number max h32 (by omega) 2 (le_refl _)]
    symm
    apply findGreatest_eq_of_gap
    · exact Nat.div_le_self number 2
    · intro d hlt hle hQ
      obtain ⟨hdvd, h2d, hdn, _, _⟩ := hQ
      -- a proper divisor of number is at most number / 2
      obtain ⟨m, hm⟩ := hdvd
      have hm2 : 2 ≤ m := by
        rcases Nat.lt_or_ge m 2 with hm1 | hm1
        · interval_cases m <;> omega
        · exact hm1
      have : d ≤ number / 2 := (Nat.le_div_iff_mul_le (by decide)).mpr (by nlinarith)
      omega

/-- Fragment of `find_suitable_factor` (part_000 lines 1457-1460): the
chosen factor and the full-unroll marking.  `*fully_unroll` was
initialized to `false` by `unroll_loop` (line 1602) and is set to `true`
exactly by `if (factor == (unsigned long) loop_count)`. -/
def chooseFactorAndMark (loopCount max : Nat) : Nat × Bool :=
  let factor := find_optimal_factor loopCount max
  (factor, factor == loopCount)

/-- C5 (amended).  For a statically derived trip count `N < 2 ^ 32` and max
factor `max`: when `N ≤ max`, `find_optimal_factor` returns `N` itself,
whether or not `N` is a power of two (full unroll); otherwise it returns
the largest power-of-two divisor `d` of `N` with `1 < d < N` and `d ≤ max`,
or 0 when no such proper divisor exists (the trivial divisor 1 is never
returned).  The loop is marked for full unrolling exactly when the chosen
factor equals the trip count. -/
theorem C5_find_optimal_factor_amended (N max : Nat) (h32 : N < 2 ^ 32) :
    (N ≤ max → find_optimal_factor N max = N) ∧
    (max < N → find_optimal_factor N max
        = Nat.findGreatest (pow2DivisorQ N max) N) ∧
    ((chooseFactorAndMark N max).2 = true ↔ (chooseFactorAndMark N max).1 = N) := by
  refine ⟨?_, ?_, ?_⟩
  · intro h
    rw [find_optimal_factor_eq N max h32, if_pos h]
  · intro h
    rw [find_optimal_factor_eq N max h32, if_neg (by omega)]
  · simp [chooseFactorAndMark]

/-- C5 counterexample.  At trip count `N = 6` and max factor 8 the code
returns 6 (the `number <= max` branch returns `number` without any
power-of-two check), while the largest power-of-two divisor of 6 not
exceeding 8 is 2; so the claim's characterization of the chosen factor is
false at this input. -/
theorem C5_counterexample :
    find_optimal_factor 6 8 = 6 ∧
    Nat.findGreatest (fun d => d ∣ 6 ∧ d ≤ 8 ∧ ∃ k, d = 2 ^ k) 6 = 2 ∧
    (6 : Nat) ≠ 2 := by
  refine ⟨by norm_num [find_optimal_factor], by decide, by decide⟩

/-- C5 witness: the amended theorem applied at `N = 12`, `max = 8`. -/
theorem C5_witness :
    (12 ≤ 8 → find_optimal_factor 12 8 = 12) ∧
    (8 < 12 → find_optimal_factor 12 8
        = Nat.findGreatest (pow2DivisorQ 12 8) 12) ∧
    ((chooseFactorAndMark 12 8).2 = true ↔ (chooseFactorAndMark 12 8).1 = 12) :=
  C5_find_optimal_factor_amended 12 8 (by norm_num)

/-! # Loop unrolling: loop tree, loop header, pass skeleton (claims C3, C4)

The loop tree mirrors `ir_loop`: a loop has elements that are either Blocks
(`k_ir_node`, identified by node id) or nested loops (`k_ir_loop`).  Loop
identity (pointer comparison in C) is modelled by a numeric loop id; the
analysis results `block_dominates`, `get_Block_idom`, `get_irn_loop` and
`get_loop_outer_loop` are supplied by an environment. -/

namespace LoopUnroll

mutual
inductive LoopElem where
  | blk : Nat → LoopElem
  | sub : LoopTree → LoopElem
inductive LoopTree where
  | mk : Nat → List LoopElem → LoopTree
end

def LoopTree.lid : LoopTree → Nat
  | .mk i _ => i

def LoopTree.elems : LoopTree → List LoopElem
  | .mk _ es => es

/-- Analysis environment: dominance relation, immediate dominators, the
innermost loop of each block, the outer-loop map on loop ids (the root
maps to itself), and a fuel bound `depth` large enough for every
idom/outer-loop chain of the graph. -/
structure DomEnv where
  dom : Nat → Nat → Bool
  idom : Nat → Option Nat
  blockLoop : Nat → Option Nat
  outerLoop : Nat → Nat
  depth : Nat

/-- `is_inner_loop` (part_000 lines 621-629): walk `get_loop_outer_loop`
from `inner` until it reaches a fixpoint or `outer`; true iff `outer` was
reached before the fixpoint. -/
def is_inner_loop (env : DomEnv) (outer : Nat) : Nat → Nat → Bool
  | 0, _ => false
  | fuel + 1, inner =>
      let next := env.outerLoop inner
      if next = inner then false
      else if next = outer then true
      else is_inner_loop env outer fuel next

/-- `block_is_inside_loop` (part_000 lines 631-637). -/
def block_is_inside_loop (env : DomEnv) (block loopId : Nat) : Bool :=
  match env.blockLoop block with
  | none => false
  | some bl => bl == loopId || is_inner_loop env loopId env.depth bl

mutual
/-- `block_dominates_loop` (part_000 lines 639-654): `block` dominates
every Block element and (recursively) every sub-loop of the loop. -/
def block_dominates_loop (dom : Nat → Nat → Bool) (block : Nat) :
    LoopTree → Bool
  | .mk _ elems => bdlElems dom block elems
def bdlElems (dom : Nat → Nat → Bool) (block : Nat) : List LoopElem → Bool
  | [] => true
  | .blk b :: rest => dom block b && bdlElems dom block rest
  | .sub t :: rest => block_dominates_loop dom block t && bdlElems dom block rest
end

mutual
/-- All Blocks of a loop, sub-loops included (specification-side). -/
def loopBlocks : LoopTree → List Nat
  | .mk _ elems => loopBlocksElems elems
def loopBlocksElems : List LoopElem → List Nat
  | [] => []
  | .blk b :: rest => b :: loopBlocksElems rest
  | .sub t :: rest => loopBlocks t ++ loopBlocksElems rest
end

mutual
theorem block_dominates_loop_iff (dom : Nat → Nat → Bool) (block : Nat) :
    ∀ L : LoopTree, block_dominates_loop dom block L = true ↔
      ∀ b ∈ loopBlocks L, dom block b = true
  | .mk i elems => by
      rw [block_dominates_loop, loopBlocks]
      exact bdlElems_iff dom block elems
theorem bdlElems_iff (dom : Nat → Nat → Bool) (block : Nat) :
    ∀ es : List LoopElem, bdlElems dom block es = true ↔
      ∀ b ∈ loopBlocksElems es, dom block b = true
  | [] => by simp [bdlElems, loopBlocksElems]
  | .blk b :: rest => by
      rw [bdlElems, loopBlocksElems]
      simp only [Bool.and_eq_true, List.mem_cons]
      rw [bdlElems_iff dom block rest]
      constructor
      · rintro ⟨h1, h2⟩ x hx
        rcases hx with rfl | hx
        · exact h1
        · exact h2 x hx
      · intro h
        exact ⟨h b (Or.inl rfl), fun x hx => h x (Or.inr hx)⟩
  | .sub t :: rest => by
      rw [bdlElems, loopBlocksElems]
      simp only [Bool.and_eq_true, List.mem_append]
      rw [bdlElems_iff dom block rest, block_dominates_loop_iff dom block t]
      constructor
      · rintro ⟨h1, h2⟩ x hx
        rcases hx with hx | hx
        · exact h1 x hx
        · exact h2 x hx
      · intro h
        exact ⟨fun x hx => h x (Or.inl hx), fun x hx => h x (Or.inr hx)⟩
end

/-- First Block element of the loop's element list (`get_loop_header`
lines 660-668 "pick a random block": the loop breaks at the first
`k_ir_node` element; the source asserts one exists). -/
def headerStart : List LoopElem → Option Nat
  | [] => none
  | .blk b :: _ => some b
  | .sub _ :: rest => headerStart rest

/-- Dominator-chain walk of `get_loop_header` (lines 671-676): while the
immediate dominator exists and is still inside the loop, move up. -/
def walkUp (env : DomEnv) (loopId : Nat) : Nat → Nat → Nat
  | 0, header => header
  | fuel + 1, header =>
      match env.idom header with
      | none => header
      | some d =>
          if block_is_inside_loop env d loopId then walkUp env loopId fuel d
          else header

/-- `get_loop_header` (part_000 lines 656-679): pick a Block of the loop,
walk up the dominance tree while inside the loop, and return the candidate
iff it dominates the whole loop, NULL otherwise. -/
def get_loop_header (env : DomEnv) (L : LoopTree) : Option Nat :=
  match headerStart L.elems with
  | none => none
  | some h0 =>
      let header := walkUp env L.lid env.depth h0
      if block_dominates_loop env.dom header L then some header else none

/-! ## The unrolling pass skeleton -/

inductive UOp where
  | Block | Phi | End | Other
deriving DecidableEq

structure UNode where
  op : UOp
  preds : List Nat
  outs : List Nat := []
deriving DecidableEq

structure UGraph where
  nodes : List (Nat × UNode)
deriving DecidableEq

structure UState where
  g : UGraph
  nUnrolled : Nat
deriving DecidableEq

/-- `find_suitable_factor` (part_000 lines 1337-1465).  The body begins
`unsigned factor = 1; return 0;` — an unconditional early return of 0
before the factor-selection code, which leaves the `fully_unroll` flag
untouched.  The remainder of the body (the trip-count analysis ending in
`find_optimal_factor`/`chooseFactorAndMark`) is dead code. -/
def find_suitable_factor (header max : Nat) (fullyUnroll : Bool) : Nat × Bool :=
  let _ := header
  let _ := max
  (0, fullyUnroll)

/-- `unroll_loop` (part_000 lines 1595-1638).  When `get_loop_header`
returns NULL the function returns at once; otherwise `find_suitable_factor`
is consulted (with `fully_unroll` initialized to false) and the function
returns before any duplication when `factor < 1 || (factor == 1 &&
!fully_unroll)`.  The duplication/rewiring body (clear links, duplicate
blocks, rewire, bump `n_loops_unrolled`, optional full-unroll rewiring,
lines 1610-1637) is abstracted as the parameter `dup`: the theorems below
hold for every `dup`, because that branch is unreachable. -/
def unroll_loop (dup : LoopTree → Nat → UState → UState) (env : DomEnv)
    (L : LoopTree) (factor : Nat) (st : UState) : UState :=
  match get_loop_header env L with
  | none => st
  | some header =>
      let fs := find_suitable_factor header factor false
      if fs.1 < 1 || (fs.1 == 1 && !fs.2) then st
      else dup L fs.1 st

mutual
/-- `duplicate_innermost_loops` (part_000 lines 1660-1694): recurse into
sub-loops; the invocation of `unroll_loop` (lines 1671-1678) is commented
out in the source, and the rest of the body only evaluates
`determine_lin_unroll_info` (a read-only analysis, abstracted as the
parameter `dlui`) and prints debug output, so the state is returned
unchanged by construction of the source itself. -/
def duplicate_innermost_loops (dlui : LoopTree → Bool) :
    LoopTree → Nat → Nat → Bool → UState → UState
  | .mk lid elems, factor, maxsize, _, st =>
      let st1 := dilElems dlui elems factor maxsize st
      let _ := dlui (.mk lid elems)
      st1
def dilElems (dlui : LoopTree → Bool) :
    List LoopElem → Nat → Nat → UState → UState
  | [], _, _, st => st
  | .blk _ :: rest, factor, maxsize, st => dilElems dlui rest factor maxsize st
  | .sub t :: rest, factor, maxsize, st =>
      dilElems dlui rest factor maxsize
        (duplicate_innermost_loops dlui t factor maxsize false st)
end

/-- `unroll_loops` (part_000 lines 1696-1713).  `assure_lcssa` and
`assure_irg_properties` establish analysis preconditions; per the spec
(§4.3) the graph is handed over in LCSSA form with consistent analyses,
so they are modelled as the identity on the graph.  The pass resets
`n_loops_unrolled`, traverses the loop tree, and reports the counter. -/
def unroll_loops (dlui : LoopTree → Bool) (rootLoop : LoopTree)
    (factor maxsize : Nat) (g : UGraph) : UGraph × Nat :=
  let st := duplicate_innermost_loops dlui rootLoop factor maxsize true
    { g := g, nUnrolled := 0 }
  (st.g, st.nUnrolled)

mutual
theorem duplicate_innermost_loops_id (dlui : LoopTree → Bool) :
    ∀ (L : LoopTree) (factor maxsize : Nat) (o : Bool) (st : UState),
      duplicate_innermost_loops dlui L factor maxsize o st = st
  | .mk _ elems, factor, maxsize, _, st => by
      rw [duplicate_innermost_loops]
      exact dilElems_id dlui elems factor maxsize st
theorem dilElems_id (dlui : LoopTree → Bool) :
    ∀ (es : List LoopElem) (factor maxsize : Nat) (st : UState),
      dilElems dlui es factor maxsize st = st
  | [], _, _, _ => by rw [dilElems]
  | .blk _ :: rest, factor, maxsize, st => by
      rw [dilElems]
      exact dilElems_id dlui rest factor maxsize st
  | .sub t :: rest, factor, maxsize, st => by
      rw [dilElems, duplicate_innermost_loops_id dlui t factor maxsize false st]
      exact dilElems_id dlui rest factor maxsize st
end

end LoopUnroll

/-- C3.  `find_suitable_factor` returns 0 for every loop header and every
max factor (unconditional early `return 0;`), leaving the full-unroll flag
untouched; consequently `unroll_loop` returns before duplicating anything,
for every possible duplication body `dup`; and `unroll_loops` leaves the
graph unchanged and reports a counter of 0 loops unrolled, for all
parameter values and every verdict of the (read-only) linear-induction
analysis. -/
theorem C3_unrolling_disabled :
    (∀ header max fu, LoopUnroll.find_suitable_factor header max fu = (0, fu)) ∧
    (∀ dup env L factor st, LoopUnroll.unroll_loop dup env L factor st = st) ∧
    (∀ dlui rootLoop factor maxsize g,
      LoopUnroll.unroll_loops dlui rootLoop factor maxsize g = (g, 0)) := by
  refine ⟨fun header max fu => rfl, ?_, ?_⟩
  · intro dup env L factor st
    rw [LoopUnroll.unroll_loop]
    match LoopUnroll.get_loop_header env L with
    | none => rfl
    | some header => rfl
  · intro dlui rootLoop factor maxsize g
    rw [LoopUnroll.unroll_loops,
      LoopUnroll.duplicate_innermost_loops_id dlui rootLoop factor maxsize true]

/-- C4.  `get_loop_header` returns a candidate Block only if that candidate
dominates every Block and every sub-loop element of the loop (conjunct 1,
stated through the recursive collection `loopBlocks` of all Blocks of the
loop and its sub-loops), and `unroll_loop` returns without mutating the
graph whenever `get_loop_header` returns NULL (conjunct 2). -/
theorem C4_loop_header_dominates (env : LoopUnroll.DomEnv) (L : LoopUnroll.LoopTree) :
    (∀ h, LoopUnroll.get_loop_header env L = some h →
      LoopUnroll.block_dominates_loop env.dom h L = true ∧
      ∀ b ∈ LoopUnroll.loopBlocks L, env.dom h b = true) ∧
    (LoopUnroll.get_loop_header env L = none →
      ∀ dup factor st, LoopUnroll.unroll_loop dup env L factor st = st) := by
  constructor
  · intro h hsome
    rw [LoopUnroll.get_loop_header] at hsome
    match hstart : LoopUnroll.headerStart L.elems with
    | none => rw [hstart] at hsome; exact absurd hsome (by simp)
    | some h0 =>
        rw [hstart] at hsome
        simp only at hsome
        by_cases hdom : LoopUnroll.block_dominates_loop env.dom
            (LoopUnroll.walkUp env L.lid env.depth h0) L = true
        · rw [if_pos hdom] at hsome
          obtain rfl : LoopUnroll.walkUp env L.lid env.depth h0 = h :=
            Option.some.inj hsome
          exact ⟨hdom, (LoopUnroll.block_dominates_loop_iff env.dom _ L).mp hdom⟩
        · rw [if_neg hdom] at hsome
          exact absurd hsome (by simp)
  · intro hnone dup factor st
    rw [LoopUnroll.unroll_loop, hnone]

/-- C4 witness: a two-block loop whose idom chain yields block 0, which
dominates both blocks (header found); and an environment with an empty
dominance relation, where the header candidate fails the check, the
header is NULL, and `unroll_loop` leaves the state unchanged. -/
theorem C4_witness :
    (LoopUnroll.block_dominates_loop
        (fun a b => decide (a ≤ b)) 0 (.mk 7 [.blk 2, .blk 1]) = true ∧
      ∀ b ∈ LoopUnroll.loopBlocks (.mk 7 [.blk 2, .blk 1]),
        decide (0 ≤ b) = true) ∧
    (LoopUnroll.unroll_loop (fun _ _ st => st)
      { dom := fun _ _ => false, idom := fun b => if b = 0 then none else some (b - 1),
        blockLoop := fun b => if b ≤ 2 then some 7 else none,
        outerLoop := fun l => l, depth := 5 }
      (.mk 7 [.blk 2, .blk 1]) 4
      { g := { nodes := [] }, nUnrolled := 0 }
      = { g := { nodes := [] }, nUnrolled := 0 }) := by
  constructor
  · exact (C4_loop_header_dominates
      { dom := fun a b => decide (a ≤ b),
        idom := fun b => if b = 0 then none else some (b - 1),
        blockLoop := fun b => if b ≤ 2 then some 7 else none,
        outerLoop := fun l => l, depth := 5 }
      (.mk 7 [.blk 2, .blk 1])).1 0 (by rfl)
  · exact (C4_loop_header_dominates _ _).2 (by rfl) _ 4 _

/-! # Double-word lowering (claims C1, C2, C6, C7, C8, C10)

Shallow embedding of the data the pass works on: a graph is a finite map
from node ids to node records (opcode, mode, input edges, owning block,
attribute payload `tv` holding the Const tarval or the Proj number).  The
pass state carries the per-node (low, high) replacement entries, the work
deque, the block phi lists, the link slots and the ProjX → Block map, as
in `lower_env_t` (be_dbgout.h lines 326-358).  The doubleword modes are
`Hs`/`Hu`, the half-width modes `Ls`/`Lu` (`lowBits` bits each). -/

namespace DwLower

inductive DwOp where
  | Block | Phi | Const | Add | Sub | Mul | Div | Mod | DivMod
  | Shl | Shr | Shrs | Rotl | And | Or | Eor | Not | Minus | Conv
  | Cmp | Cond | Proj | Mux | Call | SymConst | Dummy | Unknown
  | Jmp | End | Start | Return | Load | Store | Sel | ASM
deriving DecidableEq

inductive DwMode where
  | Hs | Hu | Ls | Lu | b | X | M | T | P | other
deriving DecidableEq

/-- Input-edge layouts (documented once): Cmp `[left, right]`, binops
`[left, right]`, Conv `[op]`, Cond `[selector]`, Proj `[pred]`, Load
`[mem, ptr]`, Store `[mem, ptr, value]`, Div/Mod/DivMod
`[mem, left, right]`, Call `[ptr, args...]` (NoMem calls), Phi one value
input per Block predecessor, Block its control-flow predecessors, End its
regular and keep-alive predecessors. -/
structure DwNode where
  op : DwOp
  mode : DwMode
  preds : List Nat
  blk : Nat := 0
  tv : Int := 0
  attrMode : DwMode := DwMode.other
deriving DecidableEq

structure DwGraph where
  nodes : List (Nat × DwNode)
  nextId : Nat
deriving DecidableEq

def DwGraph.get (g : DwGraph) (i : Nat) : Option DwNode := List.lookup i g.nodes

def DwGraph.update (g : DwGraph) (i : Nat) (f : DwNode → DwNode) : DwGraph :=
  { g with nodes := g.nodes.map (fun p => if p.1 = i then (p.1, f p.2) else p) }

def setPreds (g : DwGraph) (i : Nat) (ps : List Nat) : DwGraph :=
  g.update i (fun n => { n with preds := ps })

def setPredAt (g : DwGraph) (i : Nat) (pos : Nat) (v : Nat) : DwGraph :=
  g.update i (fun n => { n with preds := n.preds.set pos v })

def newNode (g : DwGraph) (n : DwNode) : Nat × DwGraph :=
  (g.nextId, { nodes := g.nodes ++ [(g.nextId, n)], nextId := g.nextId + 1 })

/-- Well-formed graph: unique node ids, all below the allocation counter,
and all edges pointing at existing nodes. -/
def DwGraph.WF (g : DwGraph) : Prop :=
  (g.nodes.map (fun p => p.1)).Nodup ∧
  (∀ p ∈ g.nodes, p.1 < g.nextId) ∧
  (∀ p ∈ g.nodes, ∀ q ∈ p.2.preds, (g.get q).isSome)

/-- Replacement entry of a lowered node (`node_entry_t`, lines 326-329). -/
structure DwEntry where
  low : Option Nat := none
  high : Option Nat := none
deriving DecidableEq

/-- Pass state (`lower_env_t`, lines 339-358, restricted to what the
embedded functions read and write).  `lowBits` is
`params->doubleword_size / 2`. -/
structure DwState where
  g : DwGraph
  entries : List (Nat × DwEntry)
  waitq : List Nat
  blockPhis : List (Nat × List Nat)
  links : List (Nat × Nat)
  proj2block : List (Nat × Nat)
  cfChanged : Bool := false
  mustLower : Bool := false
  lowBits : Nat := 32
deriving DecidableEq

def getEntry (st : DwState) (i : Nat) : Option DwEntry := List.lookup i st.entries

def setEntry (st : DwState) (i : Nat) (e : DwEntry) : DwState :=
  { st with entries :=
      if (List.lookup i st.entries).isSome then
        st.entries.map (fun p => if p.1 = i then (p.1, e) else p)
      else st.entries ++ [(i, e)] }

def setEntryPair (st : DwState) (i : Nat) (lowId highId : Nat) : DwState :=
  setEntry st i { low := some lowId, high := some highId }

/-- `pdeq_putr(env->waitq, node)`: append to the FIFO work deque. -/
def requeue (st : DwState) (n : Nat) : DwState :=
  { st with waitq := st.waitq ++ [n] }

def modeIsDouble (m : DwMode) : Bool := m == .Hs || m == .Hu

/-- `get_mode_size_bits` on the integer modes of the embedding. -/
def modeSizeBits (lowBits : Nat) : DwMode → Nat
  | .Hs | .Hu => 2 * lowBits
  | .Ls | .Lu => lowBits
  | _ => 0

/-- `get_mode_arithmetic(m) == irma_twos_complement` holds exactly for the
integer modes of the embedding. -/
def modeArithTwos : DwMode → Bool
  | .Hs | .Hu | .Ls | .Lu => true
  | _ => false

/-- Modelled from the spec: the node constructors (`new_r_Const` and
friends, ircons.c, outside src/) allocate a fresh node in the graph. -/
def new_r_Const (g : DwGraph) (m : DwMode) (v : Int) : Nat × DwGraph :=
  newNode g { op := .Const, mode := m, preds := [], tv := v }

/-- Modelled from the spec: `new_r_Conv` (ircons.c, outside src/) folds a
conversion to the operand's own mode into the operand itself (the spec's
shift rule "fold into a shift of the high/low halves" and its scenario 3
presuppose this constructor-level folding); otherwise it allocates a
fresh Conv node. -/
def new_r_Conv (g : DwGraph) (opId : Nat) (m : DwMode) (blkId : Nat) :
    Nat × DwGraph :=
  match g.get opId with
  | some n =>
      if n.mode = m then (opId, g)
      else newNode g { op := .Conv, mode := m, preds := [opId], blk := blkId }
  | none => (opId, g)

def predMode (g : DwGraph) (n : DwNode) (i : Nat) : DwMode :=
  match n.preds[i]? with
  | some p =>
      match g.get p with
      | some pn => pn.mode
      | none => DwMode.other
  | none => DwMode.other

/-- `get_irn_op_mode` (be_dbgout.h lines 465-483): the operational mode —
the Load mode for Load, the value/left-operand mode for Store, Div, Mod,
DivMod and Cmp, the node's own mode otherwise. -/
def get_irn_op_mode (g : DwGraph) (n : DwNode) : DwMode :=
  match n.op with
  | .Load => n.attrMode
  | .Store => predMode g n 2
  | .DivMod => predMode g n 1
  | .Div => predMode g n 1
  | .Mod => predMode g n 1
  | .Cmp => predMode g n 0
  | _ => n.mode

def setAssocList (l : List (Nat × List Nat)) (k : Nat) (v : List Nat) :
    List (Nat × List Nat) :=
  (k, v) :: l.filter (fun p => p.1 ≠ k)

/-- `add_Block_phi`: prepend the phi to the block's phi list. -/
def addBlockPhi (bp : List (Nat × List Nat)) (blkId phi : Nat) :
    List (Nat × List Nat) :=
  setAssocList bp blkId (phi :: (List.lookup blkId bp).getD [])

/-- Link-slot update (`set_irn_link`). -/
def setLink (links : List (Nat × Nat)) (k : Nat) (v : Option Nat) :
    List (Nat × Nat) :=
  let cleared := links.filter (fun p => p.1 ≠ k)
  match v with
  | none => cleared
  | some x => (k, x) :: cleared

/-- Proj-chain / phi-list / ProjX-map part of `prepare_links` (lines
525-544): Projs are chained to their predecessor through the link slot,
Phis are put on their Block's phi list, and a Block records each ProjX
control-flow predecessor in the ProjX → Block map. -/
def linkPart (st : DwState) (nodeId : Nat) (n : DwNode) : DwState :=
  match n.op with
  | .Proj =>
      match n.preds[0]? with
      | some pred =>
          let old := List.lookup pred st.links
          let links := setLink (setLink st.links nodeId old) pred (some nodeId)
          { st with links := links }
      | none => st
  | .Phi => { st with blockPhis := addBlockPhi st.blockPhis n.blk nodeId }
  | .Block =>
      { st with proj2block := n.preds.foldr (fun pr acc =>
          match st.g.get pr with
          | some prn => if prn.op = .Proj then (pr, nodeId) :: acc else acc
          | none => acc) st.proj2block }
  | _ => st

/-- `prepare_links` (be_dbgout.h lines 488-545): allocate a (low, high)
entry for every node of doubleword operational mode and flag the graph;
for a Conv whose operand is of doubleword mode only flag the graph and
return (skipping the link bookkeeping); all other nodes proceed to the
link bookkeeping. -/
def prepare_links (st : DwState) (nodeId : Nat) : DwState :=
  match st.g.get nodeId with
  | none => st
  | some n =>
      let mode := get_irn_op_mode st.g n
      if modeIsDouble mode then
        let st1 := { setEntry st nodeId {} with mustLower := true }
        linkPart st1 nodeId n
      else if n.op = .Conv then
        match n.preds[0]? with
        | some p =>
            match st.g.get p with
            | some pn =>
                if modeIsDouble pn.mode then { st with mustLower := true } else st
            | none => st
        | none => st
      else linkPart st nodeId n

/-- `tarval_convert_to` restricted to the half-width/doubleword integer
modes: truncate to the mode's width, unsigned or two's-complement signed. -/
def tarvalConvertTo (lowBits : Nat) (m : DwMode) (v : Int) : Int :=
  match m with
  | .Lu => v.emod (2 ^ lowBits)
  | .Ls =>
      let r := v.emod (2 ^ lowBits)
      if r < 2 ^ (lowBits - 1) then r else r - 2 ^ lowBits
  | .Hu => v.emod (2 ^ (2 * lowBits))
  | .Hs =>
      let r := v.emod (2 ^ (2 * lowBits))
      if r < 2 ^ (2 * lowBits - 1) then r else r - 2 ^ (2 * lowBits)
  | _ => v

/-- `tarval_shrs`: arithmetic shift right is floor division by `2 ^ n`. -/
def tarvalShrs (v : Int) (n : Nat) : Int := Int.fdiv v (2 ^ n)

/-- `lower_Const` (be_dbgout.h lines 550-571): low = tarval converted to
the half-width unsigned mode; high = tarval shifted arithmetically right
by W/2 bits, converted to the destination half-width mode. -/
def lower_Const (st : DwState) (nodeId : Nat) (mode : DwMode) : DwState :=
  match st.g.get nodeId with
  | none => st
  | some n =>
      let tvL := tarvalConvertTo st.lowBits .Lu n.tv
      let (low, g1) := new_r_Const st.g .Lu tvL
      let tvH := tarvalConvertTo st.lowBits mode (tarvalShrs n.tv st.lowBits)
      let (high, g2) := new_r_Const g1 mode tvH
      setEntryPair { st with g := g2 } nodeId low high

/-- Input-fixing loop of `lower_Phi` (lines 2310-2322): rewire the ready
inputs of the already-built low/high phis position by position; stop at
the first unready input (the partial updates stay in the graph, as in the
source).  Returns the updated graph and whether every input was ready. -/
def lowerPhiFix (st0 : DwState) (phil phih : Nat) :
    DwGraph → List Nat → Nat → DwGraph × Bool
  | g, [], _ => (g, true)
  | g, p :: rest, i =>
      match getEntry st0 p with
      | some e =>
          match e.low with
          | some lw =>
              let g1 := setPredAt g phil i lw
              let g2 := setPredAt g1 phih i (e.high.getD 0)
              lowerPhiFix st0 phil phih g2 rest (i + 1)
          | none => (g, false)
      | none => (g, false)

/-- Rebuild part of `lower_Phi` (lines 2325-2363): create two Dummy
placeholders, build two fresh Phi nodes whose inputs are the operand
pairs where ready and the Dummies otherwise, record the pair, put the new
phis on the block's phi list, and requeue the original phi when a Dummy
was used.  (Constructor-level phi optimizations are not modelled; the
source guards the phi-list insertion with `is_Phi` for that reason.) -/
def lowerPhiBuild (st : DwState) (phiId : Nat) (phiN : DwNode) (mode : DwMode) :
    DwState :=
  let (unkL, g1) := newNode st.g { op := .Dummy, mode := .Lu, preds := [] }
  let (unkH, g2) := newNode g1 { op := .Dummy, mode := mode, preds := [] }
  let ins := phiN.preds.map (fun p =>
    match getEntry st p with
    | some pe =>
        match pe.low with
        | some lw => (lw, pe.high.getD 0, false)
        | none => (unkL, unkH, true)
    | none => (unkL, unkH, true))
  let (phiL, g3) := newNode g2
    { op := .Phi, mode := .Lu, preds := ins.map (fun t => t.1), blk := phiN.blk }
  let (phiH, g4) := newNode g3
    { op := .Phi, mode := mode, preds := ins.map (fun t => t.2.1), blk := phiN.blk }
  let st1 := setEntryPair { st with g := g4 } phiId phiL phiH
  let bp2 := addBlockPhi (addBlockPhi st1.blockPhis phiN.blk phiL) phiN.blk phiH
  let st2 := { st1 with blockPhis := bp2 }
  if ins.any (fun t => t.2.2) then requeue st2 phiId else st2

/-- `lower_Phi` (be_dbgout.h lines 2293-2364).  When the pair was already
built, rewire the built phis' ready inputs, requeueing if an input is
still missing; note that when every input is ready the source FALLS
THROUGH past the `if` and rebuilds fresh phi nodes, overwriting the
entry.  When no pair exists yet, go directly to the rebuild. -/
def lower_Phi (st : DwState) (phiId : Nat) (mode : DwMode) : DwState :=
  match st.g.get phiId with
  | none => st
  | some phiN =>
      match getEntry st phiId with
      | none => st
      | some e =>
          match e.low with
          | some phil =>
              let fg := lowerPhiFix st phil (e.high.getD 0) st.g phiN.preds 0
              if fg.2 then lowerPhiBuild { st with g := fg.1 } phiId phiN mode
              else requeue { st with g := fg.1 } phiId
          | none => lowerPhiBuild st phiId phiN mode

/-- `lower_Shiftop` (be_dbgout.h lines 1068-1110): intrinsic call with
inputs (low, high, count); the count is already of a small mode.  Creates
the intrinsic address (SymConst, via `get_intrinsic_address`), the Call
(NoMem), the result-tuple Proj and the two result Projs that become the
node's pair. -/
def lower_Shiftop (st : DwState) (nodeId : Nat) (mode : DwMode) : DwState :=
  match st.g.get nodeId with
  | none => st
  | some n =>
      match n.preds[0]?, n.preds[1]? with
      | some l, some r =>
          match getEntry st l with
          | none => st
          | some e =>
              match e.low with
              | none => requeue st nodeId
              | some lw =>
                  let (sym, g1) := newNode st.g
                    { op := .SymConst, mode := .P, preds := [] }
                  let (call, g2) := newNode g1
                    { op := .Call, mode := .T, preds := [sym, lw, e.high.getD 0, r],
                      blk := n.blk }
                  let (resT, g3) := newNode g2
                    { op := .Proj, mode := .T, preds := [call], tv := 2 }
                  let (p0, g4) := newNode g3
                    { op := .Proj, mode := .Lu, preds := [resT], tv := 0 }
                  let (p1, g5) := newNode g4
                    { op := .Proj, mode := mode, preds := [resT], tv := 1 }
                  setEntryPair { st with g := g5 } nodeId p0 p1
      | _, _ => st

/-- `lower_Shl` (be_dbgout.h lines 1162-1202): for a Shl whose shift count
is a Const of at least W/2, build high = Shl(conv(low word), count − W/2)
in the destination half-width mode (just conv(low word) when the residual
count is 0) and low = Const 0 in the half-width unsigned mode — no
intrinsic call.  Otherwise fall through to `lower_Shiftop`. -/
def lower_Shl (st : DwState) (nodeId : Nat) (mode : DwMode) : DwState :=
  match st.g.get nodeId with
  | none => st
  | some n =>
      match n.preds[1]? with
      | none => lower_Shiftop st nodeId mode
      | some rightId =>
          match st.g.get rightId with
          | none => lower_Shiftop st nodeId mode
          | some rightN =>
              if modeArithTwos mode = true ∧ rightN.op = .Const ∧
                  (modeSizeBits st.lowBits mode : Int) ≤ rightN.tv then
                match n.preds[0]? with
                | none => st
                | some leftId =>
                    match (getEntry st leftId).bind (fun e => e.low) with
                    | none => requeue st nodeId
                    | some lw =>
                        let shfCnt : Int :=
                          rightN.tv - (modeSizeBits st.lowBits mode : Int)
                        let (leftC, g1) := new_r_Conv st.g lw mode n.blk
                        let hw :=
                          if 0 < shfCnt then
                            let (c, ga) := new_r_Const g1 .Lu shfCnt
                            let shlNd : DwNode :=
                              { op := .Shl, mode := mode, preds := [leftC, c], blk := n.blk }
                            newNode ga shlNd
                          else (leftC, g1)
                        let (z, g3) := new_r_Const hw.2 .Lu 0
                        setEntryPair { st with g := g3 } nodeId z hw.1
              else lower_Shiftop st nodeId mode

/-- `add_block_cf_input_nr` (be_dbgout.h lines 420-440): append
control-flow input `cf` to the block and append to every Phi on the
block's phi list a copy of that Phi's input number `nr`.  The body of the
Phi loop (`in[i] = get_irn_n(phi, i); in[arity] = in[nr]; set_irn_in`): -/
def phiCopyInput (nr : Nat) (g : DwGraph) (phiId : Nat) : DwGraph :=
  match g.get phiId with
  | some phi => setPreds g phiId (phi.preds ++ [phi.preds.getD nr 0])
  | none => g

def add_block_cf_input_nr (st : DwState) (blockId : Nat) (nr : Nat) (cf : Nat) :
    DwState :=
  match st.g.get blockId with
  | none => st
  | some blk =>
      let g0 := setPreds st.g blockId (blk.preds ++ [cf])
      let phis := (List.lookup blockId st.blockPhis).getD []
      { st with g := phis.foldl (phiCopyInput nr) g0 }

/-- `add_block_cf_input` (lines 447-460): locate the input position of
`tmpl` (the source asserts it is found; 0 otherwise) and delegate. -/
def add_block_cf_input (st : DwState) (blockId : Nat) (tmpl cf : Nat) : DwState :=
  match st.g.get blockId with
  | none => st
  | some blk =>
      add_block_cf_input_nr st blockId ((blk.preds.findIdx? (· = tmpl)).getD 0) cf

/-- Modelled from the spec: `exchange(a, b)` (irgmod.c, outside src/)
makes all uses of `a` become uses of `b`: every predecessor edge pointing
to `a` is redirected to `b`, and `a` becomes unreachable. -/
def exchange (g : DwGraph) (a b : Nat) : DwGraph :=
  { g with nodes := g.nodes.map (fun p =>
      (p.1, { p.2 with preds := p.2.preds.map (fun q => if q = a then b else q) })) }

/-- Follow the link slots from a node: the Proj chain built by
`prepare_links` (`for (proj = get_irn_link(node); proj; ...)`). -/
def linkChain (st : DwState) : Nat → Nat → List Nat
  | 0, _ => []
  | fuel + 1, n =>
      match List.lookup n st.links with
      | none => []
      | some m => m :: linkChain st fuel m

/-- The `pn_Cmp` relation codes of the old firm API: bit 0 = Eq, bit 1 =
Lt, bit 2 = Gt; `pn_Cmp_Lg = Lt|Gt = 6`. -/
def pnCmpEq : Int := 1

def pnCmpLg : Int := 6

def pnCondFalse : Int := 0

def pnCondTrue : Int := 1

/-- `pnc & ~pn_Cmp_Eq` for the small nonnegative pn_Cmp codes: clear the
equality bit (bit 0). -/
def pncWithoutEq (pnc : Int) : Int := 2 * pnc.ediv 2

/-- Equality cascade of `lower_Cond` (lines 1567-1599):
`a == b <==> a_h == b_h && a_l == b_l`, realized as control flow with a
new Block holding the low compare. -/
def lowerCondEqPath (st : DwState) (blk lw rl projT projF cmpH : Nat)
    (g1 : DwGraph) : DwState :=
  match List.lookup projF st.proj2block with
  | none => st
  | some dstBlk =>
      let (pH, g2) := newNode g1
        { op := .Proj, mode := .b, preds := [cmpH], tv := pnCmpEq }
      let (cond1, g3) := newNode g2
        { op := .Cond, mode := .T, preds := [pH], blk := blk }
      let (projHF, g4) := newNode g3
        { op := .Proj, mode := .X, preds := [cond1], tv := pnCondFalse }
      let g5 := exchange g4 projF projHF
      let (projHT, g6) := newNode g5
        { op := .Proj, mode := .X, preds := [cond1], tv := pnCondTrue }
      let (newBl, g7) := newNode g6
        { op := .Block, mode := .other, preds := [projHT] }
      let (cmpL, g8) := newNode g7
        { op := .Cmp, mode := .T, preds := [lw, rl], blk := newBl }
      let (pL, g9) := newNode g8
        { op := .Proj, mode := .b, preds := [cmpL], tv := pnCmpEq }
      let (cond2, g10) := newNode g9
        { op := .Cond, mode := .T, preds := [pL], blk := newBl }
      let (pF2, g11) := newNode g10
        { op := .Proj, mode := .X, preds := [cond2], tv := pnCondFalse }
      let st1 := add_block_cf_input { st with g := g11 } dstBlk projHF pF2
      let (pT2, g12) := newNode st1.g
        { op := .Proj, mode := .X, preds := [cond2], tv := pnCondTrue }
      { st1 with g := exchange g12 projT pT2, cfChanged := true }

/-- Inequality cascade of `lower_Cond` (lines 1600-1632):
`a != b <==> a_h != b_h || a_l != b_l`. -/
def lowerCondLgPath (st : DwState) (blk lw rl projT projF cmpH : Nat)
    (g1 : DwGraph) : DwState :=
  match List.lookup projT st.proj2block with
  | none => st
  | some dstBlk =>
      let (pH, g2) := newNode g1
        { op := .Proj, mode := .b, preds := [cmpH], tv := pnCmpLg }
      let (cond1, g3) := newNode g2
        { op := .Cond, mode := .T, preds := [pH], blk := blk }
      let (projHT, g4) := newNode g3
        { op := .Proj, mode := .X, preds := [cond1], tv := pnCondTrue }
      let g5 := exchange g4 projT projHT
      let (projHF, g6) := newNode g5
        { op := .Proj, mode := .X, preds := [cond1], tv := pnCondFalse }
      let (newBl, g7) := newNode g6
        { op := .Block, mode := .other, preds := [projHF] }
      let (cmpL, g8) := newNode g7
        { op := .Cmp, mode := .T, preds := [lw, rl], blk := newBl }
      let (pL, g9) := newNode g8
        { op := .Proj, mode := .b, preds := [cmpL], tv := pnCmpLg }
      let (cond2, g10) := newNode g9
        { op := .Cond, mode := .T, preds := [pL], blk := newBl }
      let (pT2, g11) := newNode g10
        { op := .Proj, mode := .X, preds := [cond2], tv := pnCondTrue }
      let st1 := add_block_cf_input { st with g := g11 } dstBlk projHT pT2
      let (pF2, g12) := newNode st1.g
        { op := .Proj, mode := .X, preds := [cond2], tv := pnCondFalse }
      { st1 with g := exchange g12 projF pF2, cfChanged := true }

/-- Ordered-relation cascade of `lower_Cond` (lines 1633-1686):
`a rel b <==> a_h REL b_h || (a_h == b_h && a_l rel b_l)`, with two new
Blocks. -/
def lowerCondRelPath (st : DwState) (blk lw rl projT projF cmpH : Nat)
    (pnc : Int) (g1 : DwGraph) : DwState :=
  match List.lookup projT st.proj2block, List.lookup projF st.proj2block with
  | some dstT, some dstF =>
      let (pH, g2) := newNode g1
        { op := .Proj, mode := .b, preds := [cmpH], tv := pncWithoutEq pnc }
      let (cond1, g3) := newNode g2
        { op := .Cond, mode := .T, preds := [pH], blk := blk }
      let (projHT, g4) := newNode g3
        { op := .Proj, mode := .X, preds := [cond1], tv := pnCondTrue }
      let g5 := exchange g4 projT projHT
      let (projHF, g6) := newNode g5
        { op := .Proj, mode := .X, preds := [cond1], tv := pnCondFalse }
      let (newBlEq, g7) := newNode g6
        { op := .Block, mode := .other, preds := [projHF] }
      let (pHEq, g8) := newNode g7
        { op := .Proj, mode := .b, preds := [cmpH], tv := pnCmpEq }
      let (cond2, g9) := newNode g8
        { op := .Cond, mode := .T, preds := [pHEq], blk := newBlEq }
      let (pF2, g10) := newNode g9
        { op := .Proj, mode := .X, preds := [cond2], tv := pnCondFalse }
      let g11 := exchange g10 projF pF2
      let (pT2, g12) := newNode g11
        { op := .Proj, mode := .X, preds := [cond2], tv := pnCondTrue }
      let (newBlL, g13) := newNode g12
        { op := .Block, mode := .other, preds := [pT2] }
      let (cmpL, g14) := newNode g13
        { op := .Cmp, mode := .T, preds := [lw, rl], blk := newBlL }
      let (pLrel, g15) := newNode g14
        { op := .Proj, mode := .b, preds := [cmpL], tv := pnc }
      let (cond3, g16) := newNode g15
        { op := .Cond, mode := .T, preds := [pLrel], blk := newBlL }
      let (pT3, g17) := newNode g16
        { op := .Proj, mode := .X, preds := [cond3], tv := pnCondTrue }
      let st1 := add_block_cf_input { st with g := g17 } dstT projHT pT3
      let (pF3, g18) := newNode st1.g
        { op := .Proj, mode := .X, preds := [cond3], tv := pnCondFalse }
      let st2 := add_block_cf_input { st1 with g := g18 } dstF pF2 pF3
      { st2 with cfChanged := true }
  | _, _ => st

/-- Boolean-selector part of `lower_Cond` (lines 1491-1689): the selector
is `Proj(Cmp(left, right), pnc)` and `left` carries a pair entry.  Once
both pairs are ready and the Cond's true/false Projs are found on its
link chain: either the special case `right = Const 0`, `pnc ∈ {Eq, Lg}`
replaces the selector in place by `Proj(Cmp(Or(conv low, conv high),
Const 0), pnc)` — no new Block, no control-flow change — or the generic
Eq / Lg / ordered cascades above run and set CF_CHANGED. -/
def lowerCondBool (st : DwState) (nodeId : Nat) (nd selN : DwNode) : DwState :=
  if selN.op ≠ .Proj then st else
  match selN.preds[0]? with
  | none => st
  | some cmp =>
  match st.g.get cmp with
  | none => st
  | some cmpN =>
  if cmpN.op ≠ .Cmp then st else
  match cmpN.preds[0]?, cmpN.preds[1]? with
  | some left, some right =>
    (match getEntry st left with
    | none => st    -- a normal Cmp
    | some lentry =>
      let rentry := (getEntry st right).getD {}
      if lentry.low = none ∨ rentry.low = none then requeue st nodeId
      else
        let chain := linkChain st (st.links.length + 1) nodeId
        let projT? := chain.find? (fun p =>
          ((st.g.get p).map (fun n => n.tv)).getD (-1) == pnCondTrue)
        let projF? := chain.find? (fun p =>
          ((st.g.get p).map (fun n => n.tv)).getD (-1) == pnCondFalse)
        match projT?, projF? with
        | some projT, some projF =>
          let pnc := selN.tv
          let lw := lentry.low.getD 0
          let hw := lentry.high.getD 0
          let rl := rentry.low.getD 0
          let rh := rentry.high.getD 0
          match st.g.get right with
          | none => st
          | some rightN =>
          if rightN.op = .Const ∧ rightN.tv = 0 ∧ (pnc = pnCmpEq ∨ pnc = pnCmpLg) then
            -- x ==/!= 0  ==>  Or(low, high) ==/!= 0, selector replaced in place
            let (lo, g1) := new_r_Conv st.g lw .Lu nd.blk
            let (hi, g2) := new_r_Conv g1 hw .Lu nd.blk
            let (orId, g3) := newNode g2
              { op := .Or, mode := .Lu, preds := [lo, hi], blk := nd.blk }
            let (zId, g4) := new_r_Const g3 .Lu 0
            let (cmpId, g5) := newNode g4
              { op := .Cmp, mode := .T, preds := [orId, zId], blk := nd.blk }
            let (projId, g6) := newNode g5
              { op := .Proj, mode := .b, preds := [cmpId], tv := pnc }
            { st with g := setPredAt g6 nodeId 0 projId }
          else
            let (cmpH, g1) := newNode st.g
              { op := .Cmp, mode := .T, preds := [hw, rh], blk := nd.blk }
            if pnc = pnCmpEq then
              lowerCondEqPath st nd.blk lw rl projT projF cmpH g1
            else if pnc = pnCmpLg then
              lowerCondLgPath st nd.blk lw rl projT projF cmpH g1
            else
              lowerCondRelPath st nd.blk lw rl projT projF cmpH pnc g1
        | _, _ => st)
  | _, _ => st

/-- `lower_Cond` (be_dbgout.h lines 1483-1709).  For a boolean selector
the Cmp cascade / special-case rewrite of `lowerCondBool` runs.  For a
non-boolean (jump-table) doubleword selector (lines 1690-1708) the
selector is replaced by the low word of its pair once the pair is ready,
requeueing until then; the high word is dropped.  (`mark_irn_visited`
calls only steer the surrounding walk and are not modelled.) -/
def lower_Cond (st : DwState) (nodeId : Nat) (_mode : DwMode) : DwState :=
  match st.g.get nodeId with
  | none => st
  | some nd =>
  match nd.preds[0]? with
  | none => st
  | some sel =>
  match st.g.get sel with
  | none => st
  | some selN =>
  if selN.mode = .b then lowerCondBool st nodeId nd selN
  else
    -- jump-table: a Cond selector of doubleword (non-boolean) mode; handled
    -- "like a Conv were between": replace by the low word, drop the high word
    match getEntry st sel with
    | none => st
    | some e =>
        match e.low with
        | none => requeue st nodeId
        | some lowWord => { st with g := setPredAt st.g nodeId 0 lowWord }

/-- `always_lower` (be_dbgout.h lines 2468-2483): opcodes whose lowering
function runs even without a pair entry. -/
def always_lower (op : DwOp) : Bool :=
  match op with
  | .ASM | .Proj | .Start | .Call | .Return | .Cond | .Conv | .Sel => true
  | _ => false

/-- Dispatch of `lower_ops` (be_dbgout.h lines 2555-2608) restricted to
the opcodes whose lowering functions are embedded above (Const, Phi, Shl,
Cond); the source installs one function per opcode via
`enter_lower_func` and leaves `op->ops.generic` NULL for the remaining
opcodes (End, Cmp, Jmp, Block, ... have no lowering function), which is
the `| _ => st` arm.  The destination half-width mode is the signed or
unsigned half of the operational mode, as in lines 2597-2602. -/
def lower_ops (st : DwState) (nodeId : Nat) : DwState :=
  match st.g.get nodeId with
  | none => st
  | some n =>
      if (getEntry st nodeId).isSome || always_lower n.op then
        let mode := if get_irn_op_mode st.g n = DwMode.Hs then DwMode.Ls
                    else DwMode.Lu
        match n.op with
        | .Const => lower_Const st nodeId mode
        | .Phi => lower_Phi st nodeId mode
        | .Shl => lower_Shl st nodeId mode
        | .Cond => lower_Cond st nodeId mode
        | _ => st
      else st

/-- Prepare walk (`irg_walk_graph(irg, ..., prepare_links_and_handle_rotl,
&lenv)`), post-order over the given visit order; no Rotl nodes appear in
the graphs analysed here, so `prepare_links_and_handle_rotl` reduces to
`prepare_links`. -/
def runPrepare (st : DwState) (order : List Nat) : DwState :=
  order.foldl prepare_links st

/-- Lowering walk (`irg_walk_graph(irg, NULL, lower_ops, &lenv)`). -/
def runLower (st : DwState) (order : List Nat) : DwState :=
  order.foldl lower_ops st

/-- Drain loop of `lower_dw_ops` (lines 2905-2909): pop from the left of
the FIFO deque and re-lower until empty (with fuel for termination). -/
def drain : Nat → DwState → DwState
  | 0, st => st
  | fuel + 1, st =>
      match st.waitq with
      | [] => st
      | n :: rest => drain fuel (lower_ops { st with waitq := rest } n)

/-- `n` reaches `m` in `g` by following predecessor edges (def-use
closure from a root; the reachable-from-End notion of the spec). -/
inductive Reaches (g : DwGraph) : Nat → Nat → Prop where
  | refl : ∀ a, Reaches g a a
  | step : ∀ {a b c} (n : DwNode), Reaches g a b → g.get b = some n →
      c ∈ n.preds → Reaches g a c

/-! ## Basic lemmas about the graph operations -/

theorem lookup_append {α : Type} (l1 l2 : List (Nat × α)) (k : Nat) :
    List.lookup k (l1 ++ l2)
      = match List.lookup k l1 with
        | some v => some v
        | none => List.lookup k l2 := by
  induction l1 with
  | nil => simp [List.lookup]
  | cons p rest ih =>
      rcases p with ⟨k1, v1⟩
      by_cases h : k = k1
      · subst h
        simp [List.lookup]
      · have hbeq : (k == k1) = false := by simp [h]
        simp only [List.cons_append, List.lookup, hbeq]
        exact ih

theorem lookup_some_mem {α : Type} {l : List (Nat × α)} {k : Nat} {v : α}
    (h : List.lookup k l = some v) : (k, v) ∈ l := by
  induction l with
  | nil => simp [List.lookup] at h
  | cons p rest ih =>
      rcases p with ⟨k1, v1⟩
      by_cases hk : k = k1
      · subst hk
        simp [List.lookup] at h
        simp [h]
      · have hbeq : (k == k1) = false := by simp [hk]
        simp only [List.lookup, hbeq] at h
        exact List.mem_cons_of_mem _ (ih h)

theorem lookup_cons_eq {α : Type} (k1 j : Nat) (v1 : α) (rest : List (Nat × α)) :
    List.lookup j ((k1, v1) :: rest)
      = if j = k1 then some v1 else List.lookup j rest := by
  rw [List.lookup_cons]
  by_cases h : j = k1
  · subst h
    simp
  · have hbeq : (j == k1) = false := by simp [h]
    rw [hbeq, if_neg h]

theorem lookup_map_overwrite {α : Type} (l : List (Nat × α)) (i : Nat)
    (f : α → α) (j : Nat) :
    List.lookup j (l.map (fun p => if p.1 = i then (p.1, f p.2) else p))
      = if j = i then (List.lookup j l).map f else List.lookup j l := by
  induction l with
  | nil => simp
  | cons p rest ih =>
      rcases p with ⟨k1, v1⟩
      have hmap : List.map (fun p : Nat × α => if p.1 = i then (p.1, f p.2) else p)
          ((k1, v1) :: rest)
          = (if k1 = i then (k1, f v1) else (k1, v1))
            :: List.map (fun p => if p.1 = i then (p.1, f p.2) else p) rest := rfl
      rw [hmap, lookup_cons_eq k1 j v1 rest]
      by_cases hki : k1 = i <;> by_cases hjk : j = k1
      · rw [if_pos hki, lookup_cons_eq, if_pos hjk, if_pos hjk,
          if_pos (hjk.trans hki)]
        rfl
      · rw [if_pos hki, lookup_cons_eq, if_neg hjk, if_neg hjk, ih]
      · rw [if_neg hki, lookup_cons_eq, if_pos hjk, if_pos hjk,
          if_neg (show ¬j = i by rw [hjk]; exact hki)]
      · rw [if_neg hki, lookup_cons_eq, if_neg hjk, if_neg hjk, ih]

theorem lookup_map_setconst {α : Type} (l : List (Nat × α)) (i : Nat) (e : α)
    (j : Nat) :
    List.lookup j (l.map (fun p => if p.1 = i then (p.1, e) else p))
      = if j = i then (List.lookup j l).map (fun _ => e) else List.lookup j l :=
  lookup_map_overwrite l i (fun _ => e) j

theorem get_update (g : DwGraph) (j : Nat) (f : DwNode → DwNode) (i : Nat) :
    (g.update j f).get i = if i = j then (g.get i).map f else g.get i := by
  show List.lookup i (g.nodes.map _) = _
  rw [lookup_map_overwrite]
  rfl

/-- Fresh-allocation invariant: no node id at or above the counter. -/
def DwGraph.FreshOK (g : DwGraph) : Prop :=
  ∀ k, g.nextId ≤ k → g.get k = none

theorem get_newNode_old (g : DwGraph) (n : DwNode) {i : Nat}
    (hne : i ≠ g.nextId) : ((newNode g n).2).get i = g.get i := by
  show List.lookup i (g.nodes ++ [(g.nextId, n)]) = List.lookup i g.nodes
  rw [lookup_append]
  cases hv : List.lookup i g.nodes with
  | none =>
      show List.lookup i [(g.nextId, n)] = none
      rw [lookup_cons_eq, if_neg hne]
      rfl
  | some v => rfl

theorem get_newNode_self (g : DwGraph) (n : DwNode) (hf : g.FreshOK) :
    ((newNode g n).2).get g.nextId = some n := by
  show List.lookup g.nextId (g.nodes ++ [(g.nextId, n)]) = some n
  rw [lookup_append]
  have h0 : List.lookup g.nextId g.nodes = none := hf g.nextId (le_refl _)
  rw [h0]
  show List.lookup g.nextId [(g.nextId, n)] = some n
  rw [lookup_cons_eq, if_pos rfl]

theorem freshOK_newNode (g : DwGraph) (n : DwNode) (hf : g.FreshOK) :
    ((newNode g n).2).FreshOK := by
  intro k hk
  have hk' : g.nextId + 1 ≤ k := hk
  show List.lookup k (g.nodes ++ [(g.nextId, n)]) = none
  rw [lookup_append]
  have h1 : List.lookup k g.nodes = none := hf k (by omega)
  rw [h1]
  show List.lookup k [(g.nextId, n)] = none
  rw [lookup_cons_eq, if_neg (by omega)]
  rfl

theorem get_newNode2_self (g : DwGraph) (n1 n2 : DwNode) (hf : g.FreshOK) :
    ((DwLower.newNode ((DwLower.newNode g n1).2) n2).2).get (g.nextId + 1)
      = some n2 := by
  have hf1 : ((DwLower.newNode g n1).2).FreshOK := freshOK_newNode g n1 hf
  have hn1 : ((DwLower.newNode g n1).2).nextId = g.nextId + 1 := rfl
  have h := get_newNode_self ((DwLower.newNode g n1).2) n2 hf1
  rw [hn1] at h
  exact h

theorem get_newNode3_facts (g : DwGraph) (n1 n2 n3 : DwNode) (hf : g.FreshOK) :
    (((DwLower.newNode ((DwLower.newNode ((DwLower.newNode g n1).2) n2).2) n3).2).get
        g.nextId = some n1) ∧
    (((DwLower.newNode ((DwLower.newNode ((DwLower.newNode g n1).2) n2).2) n3).2).get
        (g.nextId + 1) = some n2) ∧
    (((DwLower.newNode ((DwLower.newNode ((DwLower.newNode g n1).2) n2).2) n3).2).get
        (g.nextId + 2) = some n3) ∧
    (∀ i, i ≠ g.nextId → i ≠ g.nextId + 1 → i ≠ g.nextId + 2 →
      ((DwLower.newNode ((DwLower.newNode ((DwLower.newNode g n1).2) n2).2) n3).2).get i
        = g.get i) := by
  have hf1 : ((DwLower.newNode g n1).2).FreshOK := freshOK_newNode g n1 hf
  have hf2 : ((DwLower.newNode ((DwLower.newNode g n1).2) n2).2).FreshOK :=
    freshOK_newNode _ n2 hf1
  refine ⟨?_, ?_, ?_, ?_⟩
  · have s3 : ((DwLower.newNode ((DwLower.newNode ((DwLower.newNode g n1).2) n2).2) n3).2).get
        g.nextId = ((DwLower.newNode ((DwLower.newNode g n1).2) n2).2).get g.nextId :=
      get_newNode_old ((DwLower.newNode ((DwLower.newNode g n1).2) n2).2) n3
        ((by omega : g.nextId ≠ g.nextId + 1 + 1))
    have s2 : ((DwLower.newNode ((DwLower.newNode g n1).2) n2).2).get g.nextId
        = ((DwLower.newNode g n1).2).get g.nextId :=
      get_newNode_old ((DwLower.newNode g n1).2) n2
        ((by omega : g.nextId ≠ g.nextId + 1))
    rw [s3, s2]
    exact get_newNode_self g n1 hf
  · have s3 : ((DwLower.newNode ((DwLower.newNode ((DwLower.newNode g n1).2) n2).2) n3).2).get
        (g.nextId + 1) = ((DwLower.newNode ((DwLower.newNode g n1).2) n2).2).get (g.nextId + 1) :=
      get_newNode_old ((DwLower.newNode ((DwLower.newNode g n1).2) n2).2) n3
        ((by omega : g.nextId + 1 ≠ g.nextId + 1 + 1))
    rw [s3]
    exact get_newNode2_self g n1 n2 hf
  · have h := get_newNode_self ((DwLower.newNode ((DwLower.newNode g n1).2) n2).2) n3 hf2
    exact h
  · intro i h0 h1 h2
    have s3 : ((DwLower.newNode ((DwLower.newNode ((DwLower.newNode g n1).2) n2).2) n3).2).get i
        = ((DwLower.newNode ((DwLower.newNode g n1).2) n2).2).get i :=
      get_newNode_old ((DwLower.newNode ((DwLower.newNode g n1).2) n2).2) n3
        ((h2 : i ≠ g.nextId + 2))
    have s2 : ((DwLower.newNode ((DwLower.newNode g n1).2) n2).2).get i
        = ((DwLower.newNode g n1).2).get i :=
      get_newNode_old ((DwLower.newNode g n1).2) n2 ((h1 : i ≠ g.nextId + 1))
    have s1 : ((DwLower.newNode g n1).2).get i = g.get i :=
      get_newNode_old g n1 h0
    rw [s3, s2, s1]

theorem freshOK_update (g : DwGraph) (j : Nat) (f : DwNode → DwNode)
    (hf : g.FreshOK) : (g.update j f).FreshOK := by
  intro k hk
  rw [get_update]
  have hk' : g.get k = none := hf k hk
  rw [hk']
  split <;> rfl

theorem getEntry_setEntry (st : DwState) (i : Nat) (e : DwEntry) (j : Nat) :
    getEntry (setEntry st i e) j = if j = i then some e else getEntry st j := by
  unfold setEntry getEntry
  by_cases hx : (List.lookup i st.entries).isSome
  · simp only [if_pos hx]
    show List.lookup j (st.entries.map (fun p => if p.1 = i then (p.1, e) else p)) = _
    rw [lookup_map_setconst]
    by_cases hji : j = i
    · subst hji
      rw [if_pos rfl, if_pos rfl]
      cases hv : List.lookup j st.entries with
      | some v => rfl
      | none => rw [hv] at hx; simp at hx
    · rw [if_neg hji, if_neg hji]
  · simp only [if_neg hx]
    show List.lookup j (st.entries ++ [(i, e)]) = _
    rw [lookup_append]
    by_cases hji : j = i
    · subst hji
      have hnone : List.lookup j st.entries = none := by
        cases hv : List.lookup j st.entries with
        | none => rfl
        | some v => rw [hv] at hx; simp at hx
      rw [hnone, if_pos rfl]
      show List.lookup j [(j, e)] = some e
      rw [lookup_cons_eq, if_pos rfl]
    · rw [if_neg hji]
      cases hv : List.lookup j st.entries with
      | some v => rfl
      | none =>
          show List.lookup j [(i, e)] = none
          rw [lookup_cons_eq, if_neg hji]
          rfl

theorem get_newNode4_facts (g : DwGraph) (n1 n2 n3 n4 : DwNode)
    (hf : g.FreshOK) :
    (((newNode ((newNode ((newNode ((newNode g n1).2) n2).2) n3).2) n4).2).get
        g.nextId = some n1) ∧
    (((newNode ((newNode ((newNode ((newNode g n1).2) n2).2) n3).2) n4).2).get
        (g.nextId + 1) = some n2) ∧
    (((newNode ((newNode ((newNode ((newNode g n1).2) n2).2) n3).2) n4).2).get
        (g.nextId + 2) = some n3) ∧
    (((newNode ((newNode ((newNode ((newNode g n1).2) n2).2) n3).2) n4).2).get
        (g.nextId + 3) = some n4) ∧
    (∀ i, i ≠ g.nextId → i ≠ g.nextId + 1 → i ≠ g.nextId + 2 →
      i ≠ g.nextId + 3 →
      ((newNode ((newNode ((newNode ((newNode g n1).2) n2).2) n3).2) n4).2).get i
        = g.get i) := by
  have h3 := get_newNode3_facts g n1 n2 n3 hf
  have hf3 : ((newNode ((newNode ((newNode g n1).2) n2).2) n3).2).FreshOK :=
    freshOK_newNode _ n3 (freshOK_newNode _ n2 (freshOK_newNode _ n1 hf))
  refine ⟨?_, ?_, ?_, ?_, ?_⟩
  · rw [get_newNode_old ((newNode ((newNode ((newNode g n1).2) n2).2) n3).2) n4
        ((by omega : g.nextId ≠ g.nextId + 1 + 1 + 1))]
    exact h3.1
  · rw [get_newNode_old ((newNode ((newNode ((newNode g n1).2) n2).2) n3).2) n4
        ((by omega : g.nextId + 1 ≠ g.nextId + 1 + 1 + 1))]
    exact h3.2.1
  · rw [get_newNode_old ((newNode ((newNode ((newNode g n1).2) n2).2) n3).2) n4
        ((by omega : g.nextId + 2 ≠ g.nextId + 1 + 1 + 1))]
    exact h3.2.2.1
  · exact get_newNode_self ((newNode ((newNode ((newNode g n1).2) n2).2) n3).2)
      n4 hf3
  · intro i h0 h1 h2 h3'
    rw [get_newNode_old ((newNode ((newNode ((newNode g n1).2) n2).2) n3).2) n4
        ((h3' : i ≠ g.nextId + 3))]
    exact h3.2.2.2 i h0 h1 h2

theorem reaches_closed (g : DwGraph) (S : Nat → Prop)
    (hcl : ∀ b n, S b → g.get b = some n → ∀ c ∈ n.preds, S c) :
    ∀ a c, Reaches g a c → S a → S c := by
  intro a c h
  induction h with
  | refl => exact fun hS => hS
  | step n hr hget hc ih => exact fun hS => hcl _ n (ih hS) hget _ hc

theorem get_setPreds (g : DwGraph) (i : Nat) (x : List Nat) (j : Nat) :
    (setPreds g i x).get j
      = if j = i then (g.get j).map (fun n => { n with preds := x })
        else g.get j :=
  get_update g i _ j

theorem phiCopyInput_get_ne (nr : Nat) (g : DwGraph) (a j : Nat)
    (hne : j ≠ a) : (phiCopyInput nr g a).get j = g.get j := by
  simp only [phiCopyInput]
  cases hga : g.get a with
  | none => rfl
  | some phi => rw [get_setPreds, if_neg hne]

theorem phiCopyInput_get_self (nr : Nat) (g : DwGraph) (a : Nat)
    (phi : DwNode) (hga : g.get a = some phi) :
    (phiCopyInput nr g a).get a
      = some { phi with preds := phi.preds ++ [phi.preds.getD nr 0] } := by
  simp only [phiCopyInput, hga]
  rw [get_setPreds, if_pos rfl, hga]
  rfl

theorem phiFold_get_ne (nr : Nat) (ps : List Nat) :
    ∀ (g : DwGraph) (j : Nat), j ∉ ps →
      (ps.foldl (phiCopyInput nr) g).get j = g.get j := by
  induction ps with
  | nil => intro g j _; rfl
  | cons a t ih =>
      intro g j hj
      rw [List.foldl_cons]
      have hja : j ≠ a := fun h => hj (h ▸ List.mem_cons_self a t)
      have hjt : j ∉ t := fun h => hj (List.mem_cons_of_mem a h)
      rw [ih _ j hjt, phiCopyInput_get_ne nr g a j hja]

theorem phiFold_get_mem (nr : Nat) (ps : List Nat) :
    ∀ (g : DwGraph) (p : Nat), ps.Nodup → p ∈ ps →
      ∀ phN : DwNode, g.get p = some phN →
      (ps.foldl (phiCopyInput nr) g).get p
        = some { phN with preds := phN.preds ++ [phN.preds.getD nr 0] } := by
  induction ps with
  | nil => intro g p _ hp; cases hp
  | cons a t ih =>
      intro g p hnd hp phN hg
      rw [List.foldl_cons]
      rcases List.mem_cons.mp hp with rfl | hpt
      · have hpt' : p ∉ t := (List.nodup_cons.mp hnd).1
        rw [phiFold_get_ne nr t _ p hpt']
        exact phiCopyInput_get_self nr g p phN hg
      · have hpa : p ≠ a := fun h => (List.nodup_cons.mp hnd).1 (h ▸ hpt)
        have hg' : (phiCopyInput nr g a).get p = some phN := by
          rw [phiCopyInput_get_ne nr g a p hpa]; exact hg
        exact ih _ p (List.nodup_cons.mp hnd).2 hpt phN hg'

end DwLower

namespace LoopUnroll

/-- `get_irn_n`/node lookup on the unroller graph. -/
def UGraph.get (g : UGraph) (i : Nat) : Option UNode := List.lookup i g.nodes

/-- In-place edit of one node, as `set_irn_in`/`set_irn_n` do. -/
def UGraph.update (g : UGraph) (i : Nat) (f : UNode → UNode) : UGraph :=
  { nodes := g.nodes.map (fun p => if p.1 = i then (p.1, f p.2) else p) }

/-- `add_edge` (part_000 lines 610-620): copy the predecessor array,
append `pred`, and `set_irn_in(node, arity + 1, in)`. -/
def add_edge (g : UGraph) (nodeId pred : Nat) : UGraph :=
  UGraph.update g nodeId (fun n => { n with preds := n.preds ++ [pred] })

/-- One iteration of the out-edge loop of `rewire_successor_block`
(lines 703-715): if the out is a Phi, extend it by the copy of its input
`n` (`get_irn_link(pred)`), or by that input itself when the copy is
absent. -/
def rewirePhiStep (link : List (Nat × Nat)) (n : Nat) (g : UGraph)
    (succId : Nat) : UGraph :=
  match UGraph.get g succId with
  | some succ =>
      if succ.op = UOp.Phi then
        add_edge g succId
          ((List.lookup (succ.preds.getD n 0) link).getD (succ.preds.getD n 0))
      else g
  | none => g

/-- `rewire_successor_block` (part_000 lines 696-716): the block's input
`n` comes from a duplicated node; add that node's copy
(`get_irn_link`, asserted present) as one more control-flow input, then
run the Phi loop over the block's outs. -/
def rewire_successor_block (g : UGraph) (link : List (Nat × Nat))
    (blockId n : Nat) : UGraph :=
  match UGraph.get g blockId with
  | none => g
  | some blk =>
      let node := blk.preds.getD n 0
      let newNode := (List.lookup node link).getD 0
      blk.outs.foldl (rewirePhiStep link n) (add_edge g blockId newNode)

theorem getU_update (g : UGraph) (j : Nat) (f : UNode → UNode) (i : Nat) :
    (UGraph.update g j f).get i
      = if i = j then (UGraph.get g i).map f else UGraph.get g i := by
  show List.lookup i (g.nodes.map _) = _
  rw [DwLower.lookup_map_overwrite]
  rfl

theorem add_edge_get (g : UGraph) (nodeId pred i : Nat) :
    (add_edge g nodeId pred).get i
      = if i = nodeId
        then (UGraph.get g i).map (fun nd => { nd with preds := nd.preds ++ [pred] })
        else UGraph.get g i :=
  getU_update g nodeId _ i

theorem rewirePhiStep_get_ne (link : List (Nat × Nat)) (n : Nat)
    (g : UGraph) (a j : Nat) (hne : j ≠ a) :
    (rewirePhiStep link n g a).get j = UGraph.get g j := by
  simp only [rewirePhiStep]
  cases hga : UGraph.get g a with
  | none => rfl
  | some succ =>
      show (if succ.op = UOp.Phi
            then add_edge g a
              ((List.lookup (succ.preds.getD n 0) link).getD
                (succ.preds.getD n 0))
            else g).get j = UGraph.get g j
      by_cases hphi : succ.op = UOp.Phi
      · rw [if_pos hphi, add_edge_get, if_neg hne]
      · rw [if_neg hphi]

theorem rewirePhiStep_get_self (link : List (Nat × Nat)) (n : Nat)
    (g : UGraph) (a : Nat) (succ : UNode)
    (hga : UGraph.get g a = some succ) (hphi : succ.op = UOp.Phi) :
    (rewirePhiStep link n g a).get a
      = some { succ with preds := succ.preds
          ++ [(List.lookup (succ.preds.getD n 0) link).getD
                (succ.preds.getD n 0)] } := by
  simp only [rewirePhiStep, hga, if_pos hphi]
  rw [add_edge_get, if_pos rfl, hga]
  rfl

theorem rsbFold_get_ne (link : List (Nat × Nat)) (n : Nat) (outs : List Nat) :
    ∀ (g : UGraph) (j : Nat), j ∉ outs →
      (outs.foldl (rewirePhiStep link n) g).get j = UGraph.get g j := by
  induction outs with
  | nil => intro g j _; rfl
  | cons a t ih =>
      intro g j hj
      rw [List.foldl_cons]
      have hja : j ≠ a := fun h => hj (h ▸ List.mem_cons_self a t)
      have hjt : j ∉ t := fun h => hj (List.mem_cons_of_mem a h)
      rw [ih _ j hjt, rewirePhiStep_get_ne link n g a j hja]

theorem rsbFold_get_mem (link : List (Nat × Nat)) (n : Nat) (outs : List Nat) :
    ∀ (g : UGraph) (s : Nat), outs.Nodup → s ∈ outs →
      ∀ sn : UNode, UGraph.get g s = some sn → sn.op = UOp.Phi →
      (outs.foldl (rewirePhiStep link n) g).get s
        = some { sn with preds := sn.preds
            ++ [(List.lookup (sn.preds.getD n 0) link).getD
                  (sn.preds.getD n 0)] } := by
  induction outs with
  | nil => intro g s _ hs; cases hs
  | cons a t ih =>
      intro g s hnd hs sn hg hphi
      rw [List.foldl_cons]
      rcases List.mem_cons.mp hs with rfl | hst
      · have hst' : s ∉ t := (List.nodup_cons.mp hnd).1
        rw [rsbFold_get_ne link n t _ s hst']
        exact rewirePhiStep_get_self link n g s sn hg hphi
      · have hsa : s ≠ a := fun h => (List.nodup_cons.mp hnd).1 (h ▸ hst)
        have hg' : (rewirePhiStep link n g a).get s = some sn := by
          rw [rewirePhiStep_get_ne link n g a s hsa]; exact hg
        exact ih _ s (List.nodup_cons.mp hnd).2 hst sn hg' hphi

end LoopUnroll

/-! # Method-type lowering (claim C8) -/

namespace MTP

/-- A method type: the parameter and result types, each reduced to its
mode (`is_Primitive_type`/`get_type_mode`); compound types are carried
as mode `other`. -/
structure MType where
  params : List DwLower.DwMode
  ress : List DwLower.DwMode
deriving DecidableEq

/-- Per-type expansion of `lower_mtp` (be_dbgout.h lines 1904-1921 and
1924-1941): a primitive of the doubleword signed mode becomes the pair
`(tp_u, tp_s)`, the unsigned one `(tp_u, tp_u)`, anything else is kept
as is. -/
def lowerTy (m : DwLower.DwMode) : List DwLower.DwMode :=
  match m with
  | .Hs => [.Lu, .Ls]
  | .Hu => [.Lu, .Lu]
  | m => [m]

def lowerTys (ts : List DwLower.DwMode) : List DwLower.DwMode :=
  ts.foldr (fun m acc => lowerTy m ++ acc) []

/-- The global type state of `lower_mtp`: the type arena, the set of
types marked lowered, and the `lowered_type` pmap from original to
lowered method types. -/
structure MTypeStore where
  types : List (Nat × MType)
  loweredMark : List Nat
  loweredMap : List (Nat × Nat)
  nextId : Nat
deriving DecidableEq

/-- Modelled from the spec: `is_lowered_type`/`set_lowered_type` (type
API outside src/) mark the lowered type as "is lowered" so that a second
pass returns it unchanged. -/
def is_lowered_type (ts : MTypeStore) (t : Nat) : Bool :=
  decide (t ∈ ts.loweredMark)

/-- `lower_mtp` (be_dbgout.h lines 1860-1986): a type already marked
lowered is returned unchanged; a type with a `lowered_type` pmap entry
yields the cached result with no mutation; otherwise the expanded method
type is allocated (`new_type_method`), marked lowered, and recorded in
the pmap.  (The `value_type` block only renames parameter entities of
the new type and is not modelled.) -/
def lower_mtp (ts : MTypeStore) (mtp : Nat) : Nat × MTypeStore :=
  if is_lowered_type ts mtp then (mtp, ts)
  else
    match List.lookup mtp ts.loweredMap with
    | some res => (res, ts)
    | none =>
        match List.lookup mtp ts.types with
        | none => (mtp, ts)
        | some t =>
            (ts.nextId,
             { types := ts.types
                 ++ [(ts.nextId,
                      { params := lowerTys t.params, ress := lowerTys t.ress })],
               loweredMark := ts.loweredMark ++ [ts.nextId],
               loweredMap := ts.loweredMap ++ [(mtp, ts.nextId)],
               nextId := ts.nextId + 1 })

end MTP

/-! # The type/entity verifier (claim C9) -/

namespace Verify

/-- Distinct linkage bits of the `ir_linkage` API (irprog/entity API,
outside src/); only their distinctness matters to the checks. -/
def LINKAGE_CONSTANT : Nat := 1
def LINKAGE_WEAK : Nat := 2
def LINKAGE_GARBAGE_COLLECT : Nat := 4
def LINKAGE_MERGE : Nat := 8
def LINKAGE_HIDDEN_USER : Nat := 16
def LINKAGE_NO_CODEGEN : Nat := 32

inductive Vis where
  | external | localVis | priv
deriving DecidableEq

inductive EKind where
  | alias | normal | compoundMember | label | method | parameter
  | unknown | gotentry
deriving DecidableEq

/-- The owner type of an entity, reduced to the predicate the checks
read (`is_segment_type`, `is_frame_type`, `is_compound_type`). -/
inductive Owner where
  | segment | frame | compoundT | other
deriving DecidableEq

/-- An entity's type, reduced to what `check_initializer` and the kind
switch inspect: primitive types carry their mode, arrays their element
type, compounds their member types. -/
inductive VType where
  | prim (mode : DwLower.DwMode)
  | array (elem : VType)
  | compound (members : List VType)
  | method
  | code
  | other

/-- `ir_initializer_t`: NULL / TARVAL (with the tarval's mode) / CONST
(the value's mode and whether it sits on the const-code irg) /
COMPOUND. -/
inductive Init where
  | null
  | tarval (mode : DwLower.DwMode)
  | constVal (mode : DwLower.DwMode) (onConstIrg : Bool)
  | compound (entries : List Init)

/-- `get_type_mode`: NULL on non-primitive types. -/
def getTypeMode : VType → Option DwLower.DwMode
  | .prim m => some m
  | _ => none

def is_Method_type : VType → Bool
  | .method => true
  | _ => false

def is_code_type : VType → Bool
  | .code => true
  | _ => false

/-- `is_data_type` (part_000 lines 392-395):
`type != get_code_type() && !is_Method_type(type)`. -/
def is_data_type (t : VType) : Bool :=
  match t with
  | .code => false
  | .method => false
  | _ => true

/-- `check_initializer` (part_000 lines 309-373), returning the success
flag and the number of warning lines emitted.  The fuel argument bounds
the nesting depth (any value at least the nesting depth yields the C
semantics; the fuel-out arm is never reached then); note that in the COMPOUND case the source calls itself on the
sub-initializers WITHOUT using the returned flag (lines 342-345 and
354-361): the nested warnings are printed but `fine` is left
untouched, which the pairs below mirror by adding only the `.2`
component. -/
def check_initializer : Nat → Init → VType → Bool × Nat
  | 0, _, _ => (false, 0)
  | _ + 1, .null, _ => (true, 0)
  | _ + 1, .tarval m, ty =>
      if getTypeMode ty = some m then (true, 0) else (false, 1)
  | _ + 1, .constVal m onIrg, ty =>
      let r1 : Bool × Nat :=
        if getTypeMode ty = some m then (true, 0) else (false, 1)
      let r2 : Bool × Nat := if onIrg then (true, 0) else (false, 1)
      (r1.1 && r2.1, r1.2 + r2.2)
  | fuel + 1, .compound entries, ty =>
      match ty with
      | .array elem =>
          (true, (entries.map (fun sub =>
            (check_initializer fuel sub elem).2)).sum)
      | .compound members =>
          let ws := ((entries.zip members).map (fun p =>
            (check_initializer fuel p.1 p.2).2)).sum
          if entries.length > members.length
          then (false, 1 + ws)
          else (true, ws)
      | _ => (false, 1)

/-- `check_external_linkage` (part_000 lines 375-390). -/
def check_external_linkage (linkage : Nat) (vis : Vis) (hasDef : Bool)
    (mask : Nat) : Bool × Nat :=
  if linkage &&& mask = 0 then (true, 0)
  else
    let r1 : Bool × Nat := if vis ≠ Vis.external then (false, 1) else (true, 0)
    let r2 : Bool × Nat := if hasDef = false then (false, 1) else (true, 0)
    (r1.1 && r2.1, r1.2 + r2.2)

structure Entity where
  id : Nat
  linkage : Nat
  vis : Vis
  hasDef : Bool
  kind : EKind
  ty : VType
  owner : Owner
  initializer : Option Init := none
  irg : Option Nat := none
  irgEntity : Nat := 0
  peculiarityExistent : Bool := false
  implPresent : Bool := false
  hasLdIdent : Bool := true
  ldNameEmpty : Bool := true

/-- The `IR_LINKAGE_NO_CODEGEN` block of `check_entity` (lines
406-418). -/
def ncgCheck (e : Entity) : Bool × Nat :=
  if e.linkage &&& LINKAGE_NO_CODEGEN ≠ 0 then
    let r1 : Bool × Nat :=
      if e.kind ≠ EKind.method then (false, 1)
      else if e.irg = none then (false, 1)
      else (true, 0)
    let r2 : Bool × Nat :=
      if e.vis ≠ Vis.external then (false, 1) else (true, 0)
    (r1.1 && r2.1, r1.2 + r2.2)
  else (true, 0)

/-- The kind switch of `check_entity` (lines 424-509). -/
def checkKind (e : Entity) : Bool × Nat :=
  match e.kind with
  | .alias =>
      let r1 : Bool × Nat :=
        if e.owner ≠ Owner.segment then (false, 1) else (true, 0)
      let r2 : Bool × Nat :=
        if e.initializer.isSome then (false, 1) else (true, 0)
      (r1.1 && r2.1, r1.2 + r2.2)
  | .normal => if is_data_type e.ty then (true, 0) else (false, 1)
  | .compoundMember =>
      let r1 : Bool × Nat :=
        if e.owner ≠ Owner.compoundT then (false, 1) else (true, 0)
      let r2 : Bool × Nat :=
        if e.initializer.isSome then (false, 1) else (true, 0)
      (r1.1 && r2.1, r1.2 + r2.2)
  | .label =>
      let r1 : Bool × Nat :=
        if is_code_type e.ty = false then (false, 1) else (true, 0)
      let r2 : Bool × Nat :=
        if e.initializer.isSome then (false, 1) else (true, 0)
      (r1.1 && r2.1, r1.2 + r2.2)
  | .method =>
      let r1 : Bool × Nat :=
        if is_Method_type e.ty then (true, 0) else (false, 1)
      let r2 : Bool × Nat :=
        if e.irg.isSome ∧ e.irgEntity ≠ e.id then (false, 1) else (true, 0)
      let r3 : Bool × Nat :=
        if e.peculiarityExistent ∧ e.implPresent = false
        then (false, 1) else (true, 0)
      (r1.1 && r2.1 && r3.1, r1.2 + r2.2 + r3.2)
  | .parameter =>
      let r1 : Bool × Nat :=
        if e.owner ≠ Owner.frame then (false, 1) else (true, 0)
      let r2 : Bool × Nat :=
        if is_data_type e.ty then (true, 0) else (false, 1)
      let r3 : Bool × Nat :=
        if e.initializer.isSome then (false, 1) else (true, 0)
      (r1.1 && r2.1 && r3.1, r1.2 + r2.2 + r3.2)
  | .unknown => (true, 0)
  | .gotentry => (true, 0)

/-- `check_entity` (part_000 lines 397-511).  The three
`check_external_linkage` calls at lines 419-422 are statements whose
Boolean results are DISCARDED by the source — only their warning lines
reach the channel — so only the `.2` components enter the sum and the
flags never reach `fine`. -/
def check_entity (fuel : Nat) (e : Entity) : Bool × Nat :=
  let ri : Bool × Nat :=
    match e.initializer with
    | none => (true, 0)
    | some ini => check_initializer fuel ini e.ty
  let rn := ncgCheck e
  let wWeak := (check_external_linkage e.linkage e.vis e.hasDef LINKAGE_WEAK).2
  let wGc := (check_external_linkage e.linkage e.vis e.hasDef
    LINKAGE_GARBAGE_COLLECT).2
  let wMg := (check_external_linkage e.linkage e.vis e.hasDef LINKAGE_MERGE).2
  let rk := checkKind e
  (ri.1 && rn.1 && rk.1, ri.2 + rn.2 + wWeak + wGc + wMg + rk.2)

/-- The world `tr_verify` walks: the entities seen by `type_walk`
(graph-less worlds, so `check_type` never fires) and the four segment
scans. -/
structure Program where
  entities : List Entity
  segMembers : List Entity := []
  constructors : List Entity := []
  destructors : List Entity := []
  threadLocals : List Entity := []

/-- Public-segment-member name check (lines 530-541). -/
def segPublicName (acc : Bool × Nat) (e : Entity) : Bool × Nat :=
  if e.hasLdIdent = false ∧ e.vis ≠ Vis.priv
  then (false, acc.2 + 1) else acc

/-- Constructors/destructors member check (lines 543-575). -/
def ctorCheck (acc : Bool × Nat) (e : Entity) : Bool × Nat :=
  let acc1 : Bool × Nat :=
    if e.linkage &&& LINKAGE_HIDDEN_USER = 0 then (false, acc.2 + 1) else acc
  if e.ldNameEmpty = false then (false, acc1.2 + 1) else acc1

/-- Thread-local segment check (lines 576-591). -/
def threadCheck (acc : Bool × Nat) (e : Entity) : Bool × Nat :=
  let acc1 : Bool × Nat :=
    if e.kind = EKind.method then (false, acc.2 + 1) else acc
  if e.linkage &&& LINKAGE_CONSTANT ≠ 0 then (false, acc1.2 + 1) else acc1

/-- `tr_verify` (part_000 lines 524-591): the type_walk aggregates
`fine &= check_entity(...)`, then the segment scans run; the pair also
carries the total number of warning lines. -/
def tr_verify (fuel : Nat) (p : Program) : Bool × Nat :=
  let ew := p.entities.foldl (fun acc e =>
    let r := check_entity fuel e
    (acc.1 && r.1, acc.2 + r.2)) (true, 0)
  let sw := p.segMembers.foldl segPublicName ew
  let cw := p.constructors.foldl ctorCheck sw
  let dw := p.destructors.foldl ctorCheck cw
  p.threadLocals.foldl threadCheck dw

end Verify

/-- C6.  For a Shl node of doubleword operational mode (the dispatch
passes the half-width destination mode, here `Lu` for `Hu`) whose shift
count is a Const `c` with `c ≥ W/2` (`W/2 = lowBits`), lowering emits no
runtime call: the pair recorded for the node is low = Const 0 in the
half-width unsigned mode, and high = Shl(low word of the operand, c −
W/2) in the half-width mode — the low word itself when c = W/2 (the Conv
the source inserts folds away since the low word already has mode Lu).
Conjunct 3: every Call in the result graph was already there, i.e. no
intrinsic call is created. -/
theorem C6_lower_Shl_const_shift (st : DwLower.DwState)
    (nodeId a cId la ha : Nat) (nd cN laN : DwLower.DwNode)
    (hfresh : st.g.FreshOK)
    (hnd : st.g.get nodeId = some nd) (_hop : nd.op = DwLower.DwOp.Shl)
    (hpreds : nd.preds = [a, cId])
    (hc : st.g.get cId = some cN) (hcop : cN.op = DwLower.DwOp.Const)
    (hge : (st.lowBits : Int) ≤ cN.tv)
    (hentry : DwLower.getEntry st a = some { low := some la, high := some ha })
    (hla : st.g.get la = some laN) (hlamode : laN.mode = DwLower.DwMode.Lu) :
    ((st.lowBits : Int) < cN.tv →
      DwLower.getEntry (DwLower.lower_Shl st nodeId .Lu) nodeId
          = some { low := some (st.g.nextId + 2), high := some (st.g.nextId + 1) } ∧
      (DwLower.lower_Shl st nodeId .Lu).g.get (st.g.nextId + 2)
          = some { op := .Const, mode := .Lu, preds := [], tv := 0 } ∧
      (DwLower.lower_Shl st nodeId .Lu).g.get (st.g.nextId + 1)
          = some { op := .Shl, mode := .Lu, preds := [la, st.g.nextId], blk := nd.blk } ∧
      (DwLower.lower_Shl st nodeId .Lu).g.get st.g.nextId
          = some { op := .Const, mode := .Lu, preds := [],
                   tv := cN.tv - (st.lowBits : Int) }) ∧
    (cN.tv = (st.lowBits : Int) →
      DwLower.getEntry (DwLower.lower_Shl st nodeId .Lu) nodeId
          = some { low := some st.g.nextId, high := some la } ∧
      (DwLower.lower_Shl st nodeId .Lu).g.get st.g.nextId
          = some { op := .Const, mode := .Lu, preds := [], tv := 0 }) ∧
    (∀ i n', (DwLower.lower_Shl st nodeId .Lu).g.get i = some n' →
      n'.op = DwLower.DwOp.Call → st.g.get i = some n') := by
  have hsize : DwLower.modeSizeBits st.lowBits DwLower.DwMode.Lu = st.lowBits := rfl
  have hcond : DwLower.modeArithTwos DwLower.DwMode.Lu = true ∧
      cN.op = DwLower.DwOp.Const ∧ (st.lowBits : Int) ≤ cN.tv :=
    ⟨rfl, hcop, hge⟩
  have hconv : DwLower.new_r_Conv st.g la DwLower.DwMode.Lu nd.blk = (la, st.g) := by
    simp [DwLower.new_r_Conv, hla, hlamode]
  have hred1 : (st.lowBits : Int) < cN.tv →
      DwLower.lower_Shl st nodeId .Lu
        = DwLower.setEntryPair
            { st with g := (DwLower.newNode
                ((DwLower.newNode
                  ((DwLower.newNode st.g
                    { op := .Const, mode := .Lu, preds := [],
                      tv := cN.tv - (st.lowBits : Int) }).2)
                  { op := .Shl, mode := .Lu, preds := [la, st.g.nextId],
                    blk := nd.blk }).2)
                { op := .Const, mode := .Lu, preds := [], tv := 0 }).2 }
            nodeId (st.g.nextId + 2) (st.g.nextId + 1) := by
    intro hlt
    have hpos : (0 : Int) < cN.tv - (st.lowBits : Int) := by omega
    simp only [DwLower.lower_Shl, hnd, hpreds, List.getElem?_cons_zero,
      List.getElem?_cons_succ, hc, hsize, if_pos hcond, hentry, Option.bind,
      hconv, if_pos hpos, DwLower.new_r_Const]
    rfl
  have hred2 : cN.tv = (st.lowBits : Int) →
      DwLower.lower_Shl st nodeId .Lu
        = DwLower.setEntryPair
            { st with g := (DwLower.newNode st.g
                { op := .Const, mode := .Lu, preds := [], tv := 0 }).2 }
            nodeId st.g.nextId la := by
    intro heq
    have hnpos : ¬ (0 : Int) < cN.tv - (st.lowBits : Int) := by omega
    simp only [DwLower.lower_Shl, hnd, hpreds, List.getElem?_cons_zero,
      List.getElem?_cons_succ, hc, hsize, if_pos hcond, hentry, Option.bind,
      hconv, if_neg hnpos, DwLower.new_r_Const]
    rfl
  have facts := DwLower.get_newNode3_facts st.g
    { op := .Const, mode := .Lu, preds := [], tv := cN.tv - (st.lowBits : Int) }
    { op := .Shl, mode := .Lu, preds := [la, st.g.nextId], blk := nd.blk }
    { op := .Const, mode := .Lu, preds := [], tv := 0 } hfresh
  refine ⟨?_, ?_, ?_⟩
  · intro hlt
    rw [hred1 hlt]
    refine ⟨?_, ?_, ?_, ?_⟩
    · simp only [DwLower.setEntryPair]
      rw [DwLower.getEntry_setEntry, if_pos rfl]
    · exact facts.2.2.1
    · exact facts.2.1
    · exact facts.1
  · intro heq
    rw [hred2 heq]
    constructor
    · simp only [DwLower.setEntryPair]
      rw [DwLower.getEntry_setEntry, if_pos rfl]
    · exact DwLower.get_newNode_self st.g _ hfresh
  · intro i n' hget hcall
    rcases eq_or_lt_of_le hge with heq | hlt
    · rw [hred2 heq.symm] at hget
      have hget' : ((DwLower.newNode st.g
          { op := .Const, mode := .Lu, preds := [], tv := 0 }).2).get i
          = some n' := hget
      by_cases h0 : i = st.g.nextId
      · rw [h0, DwLower.get_newNode_self _ _ hfresh] at hget'
        cases hget'
        cases hcall
      · rw [DwLower.get_newNode_old _ _ h0] at hget'
        exact hget'
    · rw [hred1 hlt] at hget
      have hget' : ((DwLower.newNode ((DwLower.newNode ((DwLower.newNode st.g
          { op := .Const, mode := .Lu, preds := [],
            tv := cN.tv - (st.lowBits : Int) }).2)
          { op := .Shl, mode := .Lu, preds := [la, st.g.nextId],
            blk := nd.blk }).2)
          { op := .Const, mode := .Lu, preds := [], tv := 0 }).2).get i
          = some n' := hget
      by_cases h2 : i = st.g.nextId + 2
      · subst h2
        have hx := facts.2.2.1
        rw [hget'] at hx
        cases hx
        cases hcall
      · by_cases h1 : i = st.g.nextId + 1
        · subst h1
          have hx := facts.2.1
          rw [hget'] at hx
          cases hx
          cases hcall
        · by_cases h0 : i = st.g.nextId
          · subst h0
            have hx := facts.1
            rw [hget'] at hx
            cases hx
            cases hcall
          · have hx := facts.2.2.2 i h0 h1 h2
            rw [← hx]
            exact hget'

/-- C10.  When the selector of a `Cond` carries a lowered doubleword
(non-boolean) mode — a jump-table/switch index — `lower_Cond` replaces the
selector by only the low word of the lowered pair once that pair is ready,
and re-queues the Cond on the wait deque until then; the high word of the
pair does not occur in the result (it is silently discarded: the
conclusion holds for every value of `e.high`), and no failure is raised in
either case — the function returns an ordinary successor state. -/
theorem C10_cond_doubleword_selector (st : DwLower.DwState) (condId sel : Nat)
    (nd selN : DwLower.DwNode) (e : DwLower.DwEntry) (m : DwLower.DwMode)
    (hnd : st.g.get condId = some nd)
    (hpred : nd.preds = [sel])
    (hsel : st.g.get sel = some selN)
    (hmode : selN.mode ≠ DwLower.DwMode.b)
    (hentry : DwLower.getEntry st sel = some e) :
    (∀ lw, e.low = some lw →
      DwLower.lower_Cond st condId m
        = { st with g := DwLower.setPredAt st.g condId 0 lw }) ∧
    (e.low = none →
      DwLower.lower_Cond st condId m = DwLower.requeue st condId) := by
  constructor
  · intro lw hlow
    simp only [DwLower.lower_Cond, hnd, hpred, List.getElem?_cons_zero, hsel,
      if_neg hmode, hentry, hlow]
  · intro hlow
    simp only [DwLower.lower_Cond, hnd, hpred, List.getElem?_cons_zero, hsel,
      if_neg hmode, hentry, hlow]

/-- C7.  The equality-with-zero special case of `lower_Cond`
(be_dbgout.h lines 1550-1563): when the Cond's boolean selector is
`Proj(Cmp(x, Const 0), pnc)` with `pnc ∈ {Eq, Lg}` and `x` carries a
ready doubleword pair `(lw, hw)`, the selector is replaced in place by a
fresh `Proj(Cmp(Or(lw, hw), Const 0), pnc)` with the same relation (the
Convs fold because the pair already has the half mode Lu): conjuncts 1-5
give the rewired Cond and the four new nodes (Or of the two half words,
Const 0, a Cmp of half-width operands, the Proj with the original
`pnc`); conjunct 6: `CF_CHANGED` is untouched; conjunct 7: every Block
in the result was already present (no new block, control flow
unchanged); conjunct 8: the old doubleword Cmp is no longer reachable
from the Cond, so no doubleword Cmp remains in the Cond's selector
cone. -/
theorem C7_cond_eq_zero_special (st : DwLower.DwState)
    (nodeId sel cmp left right lw hw rl projT projF : Nat) (m : DwLower.DwMode)
    (nd selN cmpN rightN lwN hwN : DwLower.DwNode)
    (lentry rentry : DwLower.DwEntry)
    (hfresh : st.g.FreshOK)
    (hnd : st.g.get nodeId = some nd) (hcondop : nd.op = DwLower.DwOp.Cond)
    (hpreds : nd.preds = [sel])
    (hsel : st.g.get sel = some selN)
    (hselmode : selN.mode = DwLower.DwMode.b)
    (hselop : selN.op = DwLower.DwOp.Proj)
    (hselpreds : selN.preds = [cmp])
    (hcmp : st.g.get cmp = some cmpN) (hcmpop : cmpN.op = DwLower.DwOp.Cmp)
    (hcmppreds : cmpN.preds = [left, right])
    (hlent : DwLower.getEntry st left = some lentry)
    (hllow : lentry.low = some lw) (hlhigh : lentry.high = some hw)
    (hrent : DwLower.getEntry st right = some rentry)
    (hrlow : rentry.low = some rl)
    (hfT : (DwLower.linkChain st (st.links.length + 1) nodeId).find? (fun p =>
        ((st.g.get p).map (fun n => n.tv)).getD (-1) == DwLower.pnCondTrue)
        = some projT)
    (hfF : (DwLower.linkChain st (st.links.length + 1) nodeId).find? (fun p =>
        ((st.g.get p).map (fun n => n.tv)).getD (-1) == DwLower.pnCondFalse)
        = some projF)
    (hright : st.g.get right = some rightN)
    (hrop : rightN.op = DwLower.DwOp.Const) (hrtv : rightN.tv = 0)
    (hpnc : selN.tv = DwLower.pnCmpEq ∨ selN.tv = DwLower.pnCmpLg)
    (hlw : st.g.get lw = some lwN) (hlwm : lwN.mode = DwLower.DwMode.Lu)
    (hhw : st.g.get hw = some hwN) (hhwm : hwN.mode = DwLower.DwMode.Lu)
    (hne : cmp ≠ nodeId)
    (hnrl : ¬ DwLower.Reaches st.g lw cmp)
    (hnrh : ¬ DwLower.Reaches st.g hw cmp) :
    (DwLower.lower_Cond st nodeId m).g.get nodeId
        = some { nd with preds := nd.preds.set 0 (st.g.nextId + 3) } ∧
    (DwLower.lower_Cond st nodeId m).g.get st.g.nextId
        = some { op := .Or, mode := .Lu, preds := [lw, hw], blk := nd.blk } ∧
    (DwLower.lower_Cond st nodeId m).g.get (st.g.nextId + 1)
        = some { op := .Const, mode := .Lu, preds := [], tv := 0 } ∧
    (DwLower.lower_Cond st nodeId m).g.get (st.g.nextId + 2)
        = some { op := .Cmp, mode := .T,
                 preds := [st.g.nextId, st.g.nextId + 1], blk := nd.blk } ∧
    (DwLower.lower_Cond st nodeId m).g.get (st.g.nextId + 3)
        = some { op := .Proj, mode := .b,
                 preds := [st.g.nextId + 2], tv := selN.tv } ∧
    (DwLower.lower_Cond st nodeId m).cfChanged = st.cfChanged ∧
    (∀ i n', (DwLower.lower_Cond st nodeId m).g.get i = some n' →
      n'.op = DwLower.DwOp.Block → st.g.get i = some n') ∧
    ¬ DwLower.Reaches (DwLower.lower_Cond st nodeId m).g nodeId cmp := by
  have hnp : ¬(selN.op ≠ DwLower.DwOp.Proj) := by simp [hselop]
  have hnc : ¬(cmpN.op ≠ DwLower.DwOp.Cmp) := by simp [hcmpop]
  have hor : ¬(lentry.low = none ∨ rentry.low = none) := by
    simp [hllow, hrlow]
  have hsp : rightN.op = DwLower.DwOp.Const ∧ rightN.tv = 0 ∧
      (selN.tv = DwLower.pnCmpEq ∨ selN.tv = DwLower.pnCmpLg) :=
    ⟨hrop, hrtv, hpnc⟩
  have hconvl : DwLower.new_r_Conv st.g lw DwLower.DwMode.Lu nd.blk
      = (lw, st.g) := by
    simp [DwLower.new_r_Conv, hlw, hlwm]
  have hconvh : DwLower.new_r_Conv st.g hw DwLower.DwMode.Lu nd.blk
      = (hw, st.g) := by
    simp [DwLower.new_r_Conv, hhw, hhwm]
  have hred : DwLower.lower_Cond st nodeId m
      = { st with g := DwLower.setPredAt
                          ((DwLower.newNode ((DwLower.newNode ((DwLower.newNode
                            ((DwLower.newNode st.g
                              { op := .Or, mode := .Lu, preds := [lw, hw],
                                blk := nd.blk }).2)
                              { op := .Const, mode := .Lu, preds := [],
                                tv := 0 }).2)
                              { op := .Cmp, mode := .T,
                                preds := [st.g.nextId, st.g.nextId + 1],
                                blk := nd.blk }).2)
                              { op := .Proj, mode := .b,
                                preds := [st.g.nextId + 2],
                                tv := selN.tv }).2)
                          nodeId 0 (st.g.nextId + 3) } := by
    simp only [DwLower.lower_Cond, hnd, hpreds, List.getElem?_cons_zero, hsel,
      if_pos hselmode, DwLower.lowerCondBool, if_neg hnp, hselpreds, hcmp,
      if_neg hnc, hcmppreds, List.getElem?_cons_succ, hlent, hrent,
      Option.getD_some, hllow, hlhigh, hrlow, if_neg hor, hfT, hfF, hright,
      if_pos hsp, hconvl, hconvh, DwLower.new_r_Const]
    rfl
  have facts := DwLower.get_newNode4_facts st.g
    { op := .Or, mode := .Lu, preds := [lw, hw], blk := nd.blk }
    { op := .Const, mode := .Lu, preds := [], tv := 0 }
    { op := .Cmp, mode := .T, preds := [st.g.nextId, st.g.nextId + 1],
      blk := nd.blk }
    { op := .Proj, mode := .b, preds := [st.g.nextId + 2], tv := selN.tv }
    hfresh
  have hnodeIdlt : nodeId < st.g.nextId := by
    by_contra h
    rw [hfresh nodeId (by omega)] at hnd
    cases hnd
  have hcmplt : cmp < st.g.nextId := by
    by_contra h
    rw [hfresh cmp (by omega)] at hcmp
    cases hcmp
  have hgnode : (DwLower.lower_Cond st nodeId m).g.get nodeId
      = some { nd with preds := nd.preds.set 0 (st.g.nextId + 3) } := by
    rw [hred]
    simp only [DwLower.setPredAt]
    rw [DwLower.get_update, if_pos rfl,
      facts.2.2.2.2 nodeId (by omega) (by omega) (by omega) (by omega), hnd]
    rfl
  have hgOr : (DwLower.lower_Cond st nodeId m).g.get st.g.nextId
      = some { op := .Or, mode := .Lu, preds := [lw, hw], blk := nd.blk } := by
    rw [hred]
    simp only [DwLower.setPredAt]
    rw [DwLower.get_update, if_neg (show st.g.nextId ≠ nodeId by omega)]
    exact facts.1
  have hgConst : (DwLower.lower_Cond st nodeId m).g.get (st.g.nextId + 1)
      = some { op := .Const, mode := .Lu, preds := [], tv := 0 } := by
    rw [hred]
    simp only [DwLower.setPredAt]
    rw [DwLower.get_update, if_neg (show st.g.nextId + 1 ≠ nodeId by omega)]
    exact facts.2.1
  have hgCmp : (DwLower.lower_Cond st nodeId m).g.get (st.g.nextId + 2)
      = some { op := .Cmp, mode := .T,
               preds := [st.g.nextId, st.g.nextId + 1], blk := nd.blk } := by
    rw [hred]
    simp only [DwLower.setPredAt]
    rw [DwLower.get_update, if_neg (show st.g.nextId + 2 ≠ nodeId by omega)]
    exact facts.2.2.1
  have hgProj : (DwLower.lower_Cond st nodeId m).g.get (st.g.nextId + 3)
      = some { op := .Proj, mode := .b,
               preds := [st.g.nextId + 2], tv := selN.tv } := by
    rw [hred]
    simp only [DwLower.setPredAt]
    rw [DwLower.get_update, if_neg (show st.g.nextId + 3 ≠ nodeId by omega)]
    exact facts.2.2.2.1
  have hgOld : ∀ b, b ≠ nodeId → b ≠ st.g.nextId → b ≠ st.g.nextId + 1 →
      b ≠ st.g.nextId + 2 → b ≠ st.g.nextId + 3 →
      (DwLower.lower_Cond st nodeId m).g.get b = st.g.get b := by
    intro b hb0 hb1 hb2 hb3 hb4
    rw [hred]
    simp only [DwLower.setPredAt]
    rw [DwLower.get_update, if_neg hb0, facts.2.2.2.2 b hb1 hb2 hb3 hb4]
  refine ⟨hgnode, hgOr, hgConst, hgCmp, hgProj, by rw [hred], ?_, ?_⟩
  · intro i n' hget hblock
    by_cases hi0 : i = nodeId
    · subst hi0
      rw [hgnode] at hget
      cases hget
      rw [hcondop] at hblock
      cases hblock
    · by_cases hi1 : i = st.g.nextId
      · subst hi1
        rw [hgOr] at hget
        cases hget
        cases hblock
      · by_cases hi2 : i = st.g.nextId + 1
        · subst hi2
          rw [hgConst] at hget
          cases hget
          cases hblock
        · by_cases hi3 : i = st.g.nextId + 2
          · subst hi3
            rw [hgCmp] at hget
            cases hget
            cases hblock
          · by_cases hi4 : i = st.g.nextId + 3
            · subst hi4
              rw [hgProj] at hget
              cases hget
              cases hblock
            · rw [hgOld i hi0 hi1 hi2 hi3 hi4] at hget
              exact hget
  · intro hreach
    have hclosed : ∀ b n,
        (b = nodeId ∨ b = st.g.nextId ∨ b = st.g.nextId + 1 ∨
         b = st.g.nextId + 2 ∨ b = st.g.nextId + 3 ∨
         DwLower.Reaches st.g lw b ∨ DwLower.Reaches st.g hw b) →
        (DwLower.lower_Cond st nodeId m).g.get b = some n →
        ∀ c ∈ n.preds,
        (c = nodeId ∨ c = st.g.nextId ∨ c = st.g.nextId + 1 ∨
         c = st.g.nextId + 2 ∨ c = st.g.nextId + 3 ∨
         DwLower.Reaches st.g lw c ∨ DwLower.Reaches st.g hw c) := by
      intro b n hb hget c hc
      by_cases hb0 : b = nodeId
      · subst hb0
        rw [hgnode] at hget
        cases hget
        have hc' : c ∈ nd.preds.set 0 (st.g.nextId + 3) := hc
        rw [hpreds] at hc'
        simp only [List.set_cons_zero] at hc'
        rcases List.mem_singleton.mp hc' with rfl
        exact Or.inr (Or.inr (Or.inr (Or.inr (Or.inl rfl))))
      · by_cases hb1 : b = st.g.nextId
        · subst hb1
          rw [hgOr] at hget
          cases hget
          have hc' : c ∈ [lw, hw] := hc
          rcases List.mem_cons.mp hc' with rfl | hc''
          · exact Or.inr (Or.inr (Or.inr (Or.inr (Or.inr (Or.inl
              (DwLower.Reaches.refl c))))))
          · rcases List.mem_singleton.mp hc'' with rfl
            exact Or.inr (Or.inr (Or.inr (Or.inr (Or.inr (Or.inr
              (DwLower.Reaches.refl c))))))
        · by_cases hb2 : b = st.g.nextId + 1
          · subst hb2
            rw [hgConst] at hget
            cases hget
            exact absurd hc (List.not_mem_nil c)
          · by_cases hb3 : b = st.g.nextId + 2
            · subst hb3
              rw [hgCmp] at hget
              cases hget
              have hc' : c ∈ [st.g.nextId, st.g.nextId + 1] := hc
              rcases List.mem_cons.mp hc' with rfl | hc''
              · exact Or.inr (Or.inl rfl)
              · rcases List.mem_singleton.mp hc'' with rfl
                exact Or.inr (Or.inr (Or.inl rfl))
            · by_cases hb4 : b = st.g.nextId + 3
              · subst hb4
                rw [hgProj] at hget
                cases hget
                have hc' : c ∈ [st.g.nextId + 2] := hc
                rcases List.mem_singleton.mp hc' with rfl
                exact Or.inr (Or.inr (Or.inr (Or.inl rfl)))
              · rw [hgOld b hb0 hb1 hb2 hb3 hb4] at hget
                rcases hb with h | h | h | h | h | h | h
                · exact absurd h hb0
                · exact absurd h hb1
                · exact absurd h hb2
                · exact absurd h hb3
                · exact absurd h hb4
                · exact Or.inr (Or.inr (Or.inr (Or.inr (Or.inr (Or.inl
                    (DwLower.Reaches.step n h hget hc))))))
                · exact Or.inr (Or.inr (Or.inr (Or.inr (Or.inr (Or.inr
                    (DwLower.Reaches.step n h hget hc))))))
    have hS := DwLower.reaches_closed (DwLower.lower_Cond st nodeId m).g
      (fun x => x = nodeId ∨ x = st.g.nextId ∨ x = st.g.nextId + 1 ∨
        x = st.g.nextId + 2 ∨ x = st.g.nextId + 3 ∨
        DwLower.Reaches st.g lw x ∨ DwLower.Reaches st.g hw x)
      hclosed nodeId cmp hreach (Or.inl rfl)
    rcases hS with h | h | h | h | h | h | h
    · exact hne h
    · omega
    · omega
    · omega
    · omega
    · exact hnrl h
    · exact hnrh h

/-- Concrete state for the C7 witness: node 0 is `Cond(Proj(Cmp(phi,
Const 0), Eq))` with the doubleword phi's pair (5, 6) and the zero
constant's pair (7, 7) ready; 8 and 9 are the true/false Projs of the
Cond, linked from it. -/
def c7Nodes : List (Nat × DwLower.DwNode) :=
  [(0, { op := .Cond, mode := .T, preds := [1], blk := 20 }),
   (1, { op := .Proj, mode := .b, preds := [2], tv := 1 }),
   (2, { op := .Cmp, mode := .T, preds := [3, 4] }),
   (3, { op := .Phi, mode := .Hu, preds := [] }),
   (4, { op := .Const, mode := .Hu, preds := [], tv := 0 }),
   (5, { op := .Const, mode := .Lu, preds := [] }),
   (6, { op := .Const, mode := .Lu, preds := [] }),
   (7, { op := .Const, mode := .Lu, preds := [] }),
   (8, { op := .Proj, mode := .X, preds := [0], tv := 1 }),
   (9, { op := .Proj, mode := .X, preds := [0], tv := 0 })]

def c7State : DwLower.DwState :=
  { g := { nodes := c7Nodes, nextId := 10 },
    entries := [(3, { low := some 5, high := some 6 }),
                (4, { low := some 7, high := some 7 })],
    waitq := [], blockPhis := [], links := [(0, 8), (8, 9)],
    proj2block := [] }

/-- C7 witness: on the concrete `if (x == 0)`, the Cond's selector
becomes the fresh Proj 13 over the Cmp 12 of `Or(5, 6)` against Const 0
(nodes 10 and 11), the control-flow flag stays false, and the old
doubleword Cmp 2 is no longer reachable from the Cond. -/
theorem C7_witness :
    (DwLower.lower_Cond c7State 0 .Lu).g.get 0
        = some { op := .Cond, mode := .T, preds := [13], blk := 20 } ∧
    (DwLower.lower_Cond c7State 0 .Lu).g.get 10
        = some { op := .Or, mode := .Lu, preds := [5, 6], blk := 20 } ∧
    (DwLower.lower_Cond c7State 0 .Lu).g.get 11
        = some { op := .Const, mode := .Lu, preds := [], tv := 0 } ∧
    (DwLower.lower_Cond c7State 0 .Lu).g.get 12
        = some { op := .Cmp, mode := .T, preds := [10, 11], blk := 20 } ∧
    (DwLower.lower_Cond c7State 0 .Lu).g.get 13
        = some { op := .Proj, mode := .b, preds := [12], tv := 1 } ∧
    (DwLower.lower_Cond c7State 0 .Lu).cfChanged = false ∧
    ¬ DwLower.Reaches (DwLower.lower_Cond c7State 0 .Lu).g 0 2 := by
  have hfresh7 : c7State.g.FreshOK := by
    intro k hk
    show List.lookup k c7Nodes = none
    have h10 : (10 : Nat) ≤ k := hk
    simp only [c7Nodes]
    rw [DwLower.lookup_cons_eq, if_neg (by omega),
        DwLower.lookup_cons_eq, if_neg (by omega),
        DwLower.lookup_cons_eq, if_neg (by omega),
        DwLower.lookup_cons_eq, if_neg (by omega),
        DwLower.lookup_cons_eq, if_neg (by omega),
        DwLower.lookup_cons_eq, if_neg (by omega),
        DwLower.lookup_cons_eq, if_neg (by omega),
        DwLower.lookup_cons_eq, if_neg (by omega),
        DwLower.lookup_cons_eq, if_neg (by omega),
        DwLower.lookup_cons_eq, if_neg (by omega)]
    rfl
  have hcl5 : ∀ b n, b = 5 → c7State.g.get b = some n →
      ∀ c ∈ n.preds, c = 5 := by
    intro b n hb hget c hc
    subst hb
    rw [(by decide : c7State.g.get 5
        = some { op := DwLower.DwOp.Const, mode := DwLower.DwMode.Lu,
                 preds := [] })] at hget
    cases hget
    exact absurd hc (List.not_mem_nil c)
  have hcl6 : ∀ b n, b = 6 → c7State.g.get b = some n →
      ∀ c ∈ n.preds, c = 6 := by
    intro b n hb hget c hc
    subst hb
    rw [(by decide : c7State.g.get 6
        = some { op := DwLower.DwOp.Const, mode := DwLower.DwMode.Lu,
                 preds := [] })] at hget
    cases hget
    exact absurd hc (List.not_mem_nil c)
  have hnrl7 : ¬ DwLower.Reaches c7State.g 5 2 := fun h =>
    absurd (DwLower.reaches_closed c7State.g (fun x => x = 5) hcl5 5 2 h rfl)
      (by decide)
  have hnrh7 : ¬ DwLower.Reaches c7State.g 6 2 := fun h =>
    absurd (DwLower.reaches_closed c7State.g (fun x => x = 6) hcl6 6 2 h rfl)
      (by decide)
  have h := C7_cond_eq_zero_special c7State 0 1 2 3 4 5 6 7 8 9 .Lu
    { op := .Cond, mode := .T, preds := [1], blk := 20 }
    { op := .Proj, mode := .b, preds := [2], tv := 1 }
    { op := .Cmp, mode := .T, preds := [3, 4] }
    { op := .Const, mode := .Hu, preds := [], tv := 0 }
    { op := .Const, mode := .Lu, preds := [] }
    { op := .Const, mode := .Lu, preds := [] }
    { low := some 5, high := some 6 }
    { low := some 7, high := some 7 }
    hfresh7 (by decide) rfl rfl (by decide) rfl rfl rfl (by decide) rfl rfl
    (by decide) rfl rfl (by decide) rfl (by decide) (by decide) (by decide)
    rfl rfl (Or.inl rfl) (by decide) rfl (by decide) rfl (by decide)
    hnrl7 hnrh7
  exact ⟨h.1, h.2.1, h.2.2.1, h.2.2.2.1, h.2.2.2.2.1, h.2.2.2.2.2.1,
    h.2.2.2.2.2.2.2⟩

/-- C8.  Method-type lowering is idempotent.  (a) A type marked
"is lowered" is returned unchanged with an untouched store; (b) a type
with a `lowered_type` pmap entry yields the identical cached type and no
new type is created (the store is unchanged); (c) on a fresh method
type, running `lower_mtp` again — on the freshly built lowered type or
on the original — changes nothing further, which is the method-type half
of "`lower_dw_ops` twice equals once". -/
theorem C8_lower_mtp_idempotent (ts : MTP.MTypeStore) (mtp res : Nat)
    (t : MTP.MType) :
    (MTP.is_lowered_type ts mtp = true → MTP.lower_mtp ts mtp = (mtp, ts)) ∧
    (MTP.is_lowered_type ts mtp = false →
      List.lookup mtp ts.loweredMap = some res →
      MTP.lower_mtp ts mtp = (res, ts)) ∧
    (MTP.is_lowered_type ts mtp = false →
      List.lookup mtp ts.loweredMap = none →
      List.lookup mtp ts.types = some t →
      mtp ≠ ts.nextId →
      MTP.lower_mtp (MTP.lower_mtp ts mtp).2 (MTP.lower_mtp ts mtp).1
          = ((MTP.lower_mtp ts mtp).1, (MTP.lower_mtp ts mtp).2) ∧
      MTP.lower_mtp (MTP.lower_mtp ts mtp).2 mtp = MTP.lower_mtp ts mtp) := by
  refine ⟨?_, ?_, ?_⟩
  · intro h
    simp [MTP.lower_mtp, h]
  · intro h hmap
    simp [MTP.lower_mtp, h, hmap]
  · intro h hmap hty hne
    have hmark : mtp ∉ ts.loweredMark := by
      simpa [MTP.is_lowered_type] using h
    have hP : MTP.lower_mtp ts mtp
        = (ts.nextId,
           { types := ts.types
               ++ [(ts.nextId,
                    { params := MTP.lowerTys t.params,
                      ress := MTP.lowerTys t.ress })],
             loweredMark := ts.loweredMark ++ [ts.nextId],
             loweredMap := ts.loweredMap ++ [(mtp, ts.nextId)],
             nextId := ts.nextId + 1 }) := by
      simp [MTP.lower_mtp, h, hmap, hty]
    rw [hP]
    constructor
    · simp [MTP.lower_mtp, MTP.is_lowered_type]
    · simp only [MTP.lower_mtp, MTP.is_lowered_type]
      rw [if_neg (by simp [hmark, hne])]
      rw [DwLower.lookup_append, hmap, DwLower.lookup_cons_eq, if_pos rfl]

/-- Concrete store for the C8 witness: method type 0 takes `(u64, ptr)`
and returns `s64`; nothing is lowered yet. -/
def c8Store : MTP.MTypeStore :=
  { types := [(0, { params := [.Hu, .P], ress := [.Hs] })],
    loweredMark := [], loweredMap := [], nextId := 1 }

/-- The store after lowering type 0: type 1 takes `(u32, u32, ptr)` and
returns `(u32, s32)`, is marked lowered, and is cached for 0. -/
def c8StoreDone : MTP.MTypeStore :=
  { types := [(0, { params := [.Hu, .P], ress := [.Hs] }),
              (1, { params := [.Lu, .Lu, .P], ress := [.Lu, .Ls] })],
    loweredMark := [1], loweredMap := [(0, 1)], nextId := 2 }

/-- C8 witness: on the lowered store, type 1 (marked) and type 0
(cached) both come back as 1 with the store untouched; on the fresh
store, a second `lower_mtp` after the first changes nothing. -/
theorem C8_witness :
    MTP.lower_mtp c8StoreDone 1 = (1, c8StoreDone) ∧
    MTP.lower_mtp c8StoreDone 0 = (1, c8StoreDone) ∧
    MTP.lower_mtp (MTP.lower_mtp c8Store 0).2 (MTP.lower_mtp c8Store 0).1
        = ((MTP.lower_mtp c8Store 0).1, (MTP.lower_mtp c8Store 0).2) ∧
    MTP.lower_mtp (MTP.lower_mtp c8Store 0).2 0 = MTP.lower_mtp c8Store 0 := by
  have hc := (C8_lower_mtp_idempotent c8Store 0 0
    { params := [.Hu, .P], ress := [.Hs] }).2.2
    (by decide) (by decide) (by decide) (by decide)
  exact ⟨(C8_lower_mtp_idempotent c8StoreDone 1 0
      { params := [], ress := [] }).1 (by decide),
    (C8_lower_mtp_idempotent c8StoreDone 0 1
      { params := [], ress := [] }).2.1 (by decide) (by decide),
    hc.1, hc.2⟩

/-- The C9 failing input: a normal data entity with WEAK linkage that is
neither externally visible nor defined; no other defect. -/
def c9Entity : Verify.Entity :=
  { id := 0, linkage := Verify.LINKAGE_WEAK, vis := .localVis,
    hasDef := false, kind := .normal, ty := .prim .Lu, owner := .other }

def c9Program : Verify.Program := { entities := [c9Entity] }

/-- C9.  The claim that `tr_verify` "returns success if and only if no
individual check failed, including external-linkage checks and nested
compound-initializer entries" does not hold of the code: on the entity
above, `tr_verify` emits two warning lines (WEAK but not externally
visible; WEAK but just a declaration) yet returns success, because
`check_entity` discards the Boolean results of its three
`check_external_linkage` calls (part_000 lines 419-422).  Conjunct 2
shows the discarded individual check does fail.  Conjuncts 3-4 show the
second discarding site: a compound initializer whose nested entry fails
its mode check still comes back `fine` with the nested warning counted
(lines 342-345/354-361 ignore the recursive results). -/
theorem C9_tr_verify_success_despite_warnings :
    Verify.tr_verify 4 c9Program = (true, 2) ∧
    (Verify.check_external_linkage c9Entity.linkage c9Entity.vis
      c9Entity.hasDef Verify.LINKAGE_WEAK).1 = false ∧
    Verify.check_initializer 4
        (Verify.Init.compound [Verify.Init.tarval DwLower.DwMode.Lu])
        (Verify.VType.array (Verify.VType.prim DwLower.DwMode.Ls))
      = (true, 1) ∧
    (Verify.check_initializer 4 (Verify.Init.tarval DwLower.DwMode.Lu)
        (Verify.VType.prim DwLower.DwMode.Ls)).1 = false := by
  decide

/-- The C1 failing input: a loop whose doubleword Phi (node 4, mode Hu)
is kept alive only through the End node's keep-alive edge. -/
def c1Nodes : List (Nat × DwLower.DwNode) :=
  [(0, { op := .Block, mode := .other, preds := [] }),
   (1, { op := .Jmp, mode := .X, preds := [], blk := 0 }),
   (2, { op := .Block, mode := .other, preds := [1, 5] }),
   (5, { op := .Jmp, mode := .X, preds := [], blk := 2 }),
   (3, { op := .Const, mode := .Hu, preds := [], tv := 7 }),
   (4, { op := .Phi, mode := .Hu, preds := [3, 4], blk := 2 }),
   (6, { op := .End, mode := .other, preds := [4], blk := 0 })]

def c1State : DwLower.DwState :=
  { g := { nodes := c1Nodes, nextId := 7 },
    entries := [], waitq := [], blockPhis := [], links := [],
    proj2block := [] }

def c1Order : List Nat := [0, 1, 2, 5, 3, 4, 6]

/-- The full `lower_dw_ops` pipeline on that graph: prepare walk,
lowering walk, drain of the wait deque. -/
def c1Final : DwLower.DwState :=
  DwLower.drain 8 (DwLower.runLower (DwLower.runPrepare c1State c1Order)
    c1Order)

/-- C1.  The mode-closure property `∀ n reachable from End: mode(n) ∉
{Hs, Hu}` after `lower_dw_ops` fails on the code: `lower_ops`
(lines 2555-2608) installs no lowering function for End and nothing ever
rewires End's keep-alive edges, so after the complete pipeline
(prepare + lower walks + drain, which terminates: the wait deque is
empty) the End node still holds its original keep-alive preds and the
doubleword Phi behind it survives untouched with mode Hu — and is
reachable from End.  The pass did set `must_lower` and built the
half-width pairs; only the keep-alive user was never redirected. -/
theorem C1_end_keepalive_phi_survives :
    c1Final.g.get 6
        = some { op := .End, mode := .other, preds := [4], blk := 0 } ∧
    c1Final.g.get 4
        = some { op := .Phi, mode := .Hu, preds := [3, 4], blk := 2 } ∧
    DwLower.Reaches c1Final.g 6 4 ∧
    c1Final.waitq = [] ∧
    c1Final.mustLower = true := by
  refine ⟨by decide, by decide, ?_, by decide, by decide⟩
  exact DwLower.Reaches.step
    { op := .End, mode := .other, preds := [4], blk := 0 }
    (DwLower.Reaches.refl 6) (by decide) (by decide)

/-- Concrete state for the C10 witness: node 1 is a Cond whose selector is
the doubleword Phi 0, whose pair (2, 3) is ready. -/
def c10Nodes : List (Nat × DwLower.DwNode) :=
  [(0, { op := .Phi, mode := .Hu, preds := [] }),
   (1, { op := .Cond, mode := .T, preds := [0], blk := 5 }),
   (2, { op := .Const, mode := .Lu, preds := [] }),
   (3, { op := .Const, mode := .Lu, preds := [] })]

def c10State : DwLower.DwState :=
  { g := { nodes := c10Nodes, nextId := 4 },
    entries := [(0, { low := some 2, high := some 3 })],
    waitq := [], blockPhis := [], links := [], proj2block := [] }

/-- Same graph, but the selector's pair is not built yet. -/
def c10StateUnready : DwLower.DwState :=
  { c10State with entries := [(0, ({ low := none, high := none } : DwLower.DwEntry))] }

/-- C10 witness: at the concrete Cond, the ready pair rewires the selector
to the low word 2, and the unready pair re-queues the Cond. -/
theorem C10_witness :
    DwLower.lower_Cond c10State 1 .Lu
        = { c10State with g := DwLower.setPredAt c10State.g 1 0 2 } ∧
    DwLower.lower_Cond c10StateUnready 1 .Lu
        = DwLower.requeue c10StateUnready 1 :=
  ⟨(C10_cond_doubleword_selector c10State 1 0
      { op := .Cond, mode := .T, preds := [0], blk := 5 }
      { op := .Phi, mode := .Hu, preds := [] }
      { low := some 2, high := some 3 } .Lu (by decide) rfl (by decide)
      (by decide) (by decide)).1 2 rfl,
   (C10_cond_doubleword_selector c10StateUnready 1 0
      { op := .Cond, mode := .T, preds := [0], blk := 5 }
      { op := .Phi, mode := .Hu, preds := [] }
      { low := none, high := none } .Lu (by decide) rfl (by decide)
      (by decide) (by decide)).2 rfl⟩

/-- C2.  Both passes re-establish the Phi-arity invariant whenever they
add a control-flow input to a Block.  Lowering (`add_block_cf_input_nr`,
be_dbgout.h lines 420-440): the block gets exactly one new input `cf`,
and every Phi on the block's phi list gets exactly one new input, a copy
of that Phi's input `nr`; a Phi whose arity equalled the block's arity
before equals it after.  Unroller (`rewire_successor_block`, part_000
lines 696-716): the successor block gets one new input (the copy of its
input `n`), and every Phi among the block's outs gets one new input (the
copy of that Phi's input `n`, or the input itself when no copy exists);
again equal arities stay equal.  The hypotheses `blockId ∉ ps`,
`ps.Nodup` (and likewise for the outs) state that the phi list holds
distinct Phi nodes other than the block itself. -/
theorem C2_phi_arity_preserved
    (st : DwLower.DwState) (blockId nr cf : Nat) (blk : DwLower.DwNode)
    (ps : List Nat)
    (hblk : st.g.get blockId = some blk)
    (hps : List.lookup blockId st.blockPhis = some ps)
    (hnb : blockId ∉ ps) (hnd : ps.Nodup)
    (ug : LoopUnroll.UGraph) (link : List (Nat × Nat)) (ubId un : Nat)
    (ublk : LoopUnroll.UNode)
    (hublk : LoopUnroll.UGraph.get ug ubId = some ublk)
    (hunb : ubId ∉ ublk.outs) (hund : ublk.outs.Nodup) :
    ((DwLower.add_block_cf_input_nr st blockId nr cf).g.get blockId
        = some { blk with preds := blk.preds ++ [cf] } ∧
     ∀ p ∈ ps, ∀ phN : DwLower.DwNode, st.g.get p = some phN →
       (DwLower.add_block_cf_input_nr st blockId nr cf).g.get p
           = some { phN with preds := phN.preds ++ [phN.preds.getD nr 0] } ∧
       (phN.preds.length = blk.preds.length →
         (phN.preds ++ [phN.preds.getD nr 0]).length
           = (blk.preds ++ [cf]).length)) ∧
    ((LoopUnroll.rewire_successor_block ug link ubId un).get ubId
        = some { ublk with preds := ublk.preds
            ++ [(List.lookup (ublk.preds.getD un 0) link).getD 0] } ∧
     ∀ s ∈ ublk.outs, ∀ sn : LoopUnroll.UNode,
       LoopUnroll.UGraph.get ug s = some sn →
       sn.op = LoopUnroll.UOp.Phi →
       (LoopUnroll.rewire_successor_block ug link ubId un).get s
           = some { sn with preds := sn.preds
               ++ [(List.lookup (sn.preds.getD un 0) link).getD
                     (sn.preds.getD un 0)] } ∧
       (sn.preds.length = ublk.preds.length →
         (sn.preds ++ [(List.lookup (sn.preds.getD un 0) link).getD
                         (sn.preds.getD un 0)]).length
           = (ublk.preds
               ++ [(List.lookup (ublk.preds.getD un 0) link).getD 0]).length)) := by
  have hred : (DwLower.add_block_cf_input_nr st blockId nr cf).g
      = ps.foldl (DwLower.phiCopyInput nr)
          (DwLower.setPreds st.g blockId (blk.preds ++ [cf])) := by
    simp only [DwLower.add_block_cf_input_nr, hblk, hps, Option.getD_some]
  have hredU : LoopUnroll.rewire_successor_block ug link ubId un
      = ublk.outs.foldl (LoopUnroll.rewirePhiStep link un)
          (LoopUnroll.add_edge ug ubId
            ((List.lookup (ublk.preds.getD un 0) link).getD 0)) := by
    simp only [LoopUnroll.rewire_successor_block, hublk]
  refine ⟨⟨?_, ?_⟩, ?_, ?_⟩
  · rw [hred, DwLower.phiFold_get_ne nr ps _ blockId hnb,
        DwLower.get_setPreds, if_pos rfl, hblk]
    rfl
  · intro p hp phN hphN
    have hpb : p ≠ blockId := fun h => hnb (h ▸ hp)
    refine ⟨?_, ?_⟩
    · rw [hred]
      refine DwLower.phiFold_get_mem nr ps _ p hnd hp phN ?_
      rw [DwLower.get_setPreds, if_neg hpb]
      exact hphN
    · intro hlen
      simp [hlen]
  · rw [hredU, LoopUnroll.rsbFold_get_ne link un ublk.outs _ ubId hunb,
        LoopUnroll.add_edge_get, if_pos rfl, hublk]
    rfl
  · intro s hs sn hsn hphi
    have hsb : s ≠ ubId := fun h => hunb (h ▸ hs)
    refine ⟨?_, ?_⟩
    · rw [hredU]
      refine LoopUnroll.rsbFold_get_mem link un ublk.outs _ s hund hs sn ?_ hphi
      rw [LoopUnroll.add_edge_get, if_neg hsb]
      exact hsn
    · intro hlen
      simp [hlen]

/-- Concrete graphs for the C2 witness: on the lowering side, Block 0
with one input and one Phi (node 1) on its phi list; on the unroller
side, Block 0 with one input whose source 2 has copy 5, and Phi 1 among
its outs whose input 3 has copy 6. -/
def c2State : DwLower.DwState :=
  { g := { nodes := [(0, { op := .Block, mode := .other, preds := [10] }),
                     (1, { op := .Phi, mode := .Lu, preds := [20] })],
           nextId := 2 },
    entries := [], waitq := [], blockPhis := [(0, [1])], links := [],
    proj2block := [] }

def c2UGraph : LoopUnroll.UGraph :=
  { nodes := [(0, { op := .Block, preds := [2], outs := [1] }),
              (1, { op := .Phi, preds := [3], outs := [] }),
              (2, { op := .Other, preds := [], outs := [0] }),
              (3, { op := .Other, preds := [], outs := [1] })] }

/-- C2 witness: adding control-flow input 11 to Block 0 (copying Phi
input 0) extends both the block and its Phi by one input; rewiring the
successor block 0 through the link map [(2,5),(3,6)] likewise extends
block and Phi together. -/
theorem C2_witness :
    (DwLower.add_block_cf_input_nr c2State 0 0 11).g.get 0
        = some { op := .Block, mode := .other, preds := [10, 11] } ∧
    (DwLower.add_block_cf_input_nr c2State 0 0 11).g.get 1
        = some { op := .Phi, mode := .Lu, preds := [20, 20] } ∧
    (LoopUnroll.rewire_successor_block c2UGraph [(2, 5), (3, 6)] 0 0).get 0
        = some { op := .Block, preds := [2, 5], outs := [1] } ∧
    (LoopUnroll.rewire_successor_block c2UGraph [(2, 5), (3, 6)] 0 0).get 1
        = some { op := .Phi, preds := [3, 6], outs := [] } := by
  have h := C2_phi_arity_preserved c2State 0 0 11
    { op := .Block, mode := .other, preds := [10] } [1]
    (by decide) rfl (by decide) (by decide)
    c2UGraph [(2, 5), (3, 6)] 0 0
    { op := .Block, preds := [2], outs := [1] }
    (by decide) (by decide) (by decide)
  refine ⟨h.1.1, ?_, h.2.1, ?_⟩
  · exact (h.1.2 1 (by decide) { op := .Phi, mode := .Lu, preds := [20] }
      (by decide)).1
  · exact (h.2.2 1 (by decide) { op := .Phi, preds := [3], outs := [] }
      (by decide) rfl).1

/-- Concrete state for the C6 witness: node 2 is `Shl(phi, 40)` of
operational mode Hu (half-width Lu, lowBits = 32), the operand pair
(3, 4) is ready, and the shift count 40 exceeds the half width. -/
def c6Nodes : List (Nat × DwLower.DwNode) :=
  [(0, { op := .Phi, mode := .Hu, preds := [] }),
   (1, { op := .Const, mode := .Hu, preds := [], tv := 40 }),
   (2, { op := .Shl, mode := .Hu, preds := [0, 1], blk := 9 }),
   (3, { op := .Const, mode := .Lu, preds := [] }),
   (4, { op := .Const, mode := .Lu, preds := [] })]

def c6State : DwLower.DwState :=
  { g := { nodes := c6Nodes, nextId := 5 },
    entries := [(0, { low := some 3, high := some 4 })],
    waitq := [], blockPhis := [], links := [], proj2block := [] }

/-- C6 witness: at the concrete Shl by Const 40 (half width 32), the pair
becomes (Const 0, Shl(low, 8)) with fresh ids 7 and 6, the residual count
8 = 40 − 32 sits in the new Const 5, and no Call node is created. -/
theorem C6_witness :
    DwLower.getEntry (DwLower.lower_Shl c6State 2 .Lu) 2
        = some { low := some 7, high := some 6 } ∧
    (DwLower.lower_Shl c6State 2 .Lu).g.get 7
        = some { op := .Const, mode := .Lu, preds := [], tv := 0 } ∧
    (DwLower.lower_Shl c6State 2 .Lu).g.get 6
        = some { op := .Shl, mode := .Lu, preds := [3, 5], blk := 9 } ∧
    (DwLower.lower_Shl c6State 2 .Lu).g.get 5
        = some { op := .Const, mode := .Lu, preds := [], tv := 8 } :=
  (C6_lower_Shl_const_shift c6State 2 0 1 3 4
    { op := .Shl, mode := .Hu, preds := [0, 1], blk := 9 }
    { op := .Const, mode := .Hu, preds := [], tv := 40 }
    { op := .Const, mode := .Lu, preds := [] }
    (by
      intro k hk
      show List.lookup k c6Nodes = none
      have h5 : (5 : Nat) ≤ k := hk
      simp only [c6Nodes]
      rw [DwLower.lookup_cons_eq, if_neg (by omega),
          DwLower.lookup_cons_eq, if_neg (by omega),
          DwLower.lookup_cons_eq, if_neg (by omega),
          DwLower.lookup_cons_eq, if_neg (by omega),
          DwLower.lookup_cons_eq, if_neg (by omega)]
      rfl)
    (by decide) rfl rfl (by decide) rfl (by decide) (by decide)
    (by decide) rfl).1 (by decide)

end Spec2Proof
